import Mathlib

/-!
Shallow embedding of the placement core of the shetris game
(src/src/engine/placement/{piece,field,mover}.py and
src/src/engine/placement/srs/{coord,kick}.py), together with theorems
settling the frozen claims about it.

Conventions of the embedding:
* numpy integer pairs become `Int × Int` (component 0 = row / pos0,
  component 1 = column / pos1);
* the 4 piece cells become a `List (Int × Int)`;
* the playfield becomes a rectangular `List (List Bool)`;
* a Python function returning `None` on failure becomes `Option`;
* `Config.__init__` always reduces the rotation modulo 4, so the
  rotation is represented as `Fin 4` produced by `rotMod`.
-/

set_option maxHeartbeats 1000000

namespace Shetris

/-- Python `rot % 4` as performed by `Config.__init__`: Python's `%` on
integers agrees with `Int.emod` for a positive modulus. -/
def rotMod (z : Int) : Fin 4 :=
  ⟨(z % 4).toNat, by
    have h1 : 0 ≤ z % 4 := Int.emod_nonneg z (by norm_num)
    have h2 : z % 4 < 4 := Int.emod_lt_of_pos z (by norm_num)
    omega⟩

/-- Python `Config` of piece.py: the reference position and the rotation
(stored reduced mod 4, as the Python constructor guarantees). -/
structure Config where
  pos : Int × Int
  rot : Fin 4
deriving DecidableEq, Repr

/-- The Python constructor `Config(pos, rot)`: reduces `rot` mod 4. -/
def Config.make (pos : Int × Int) (rot : Int) : Config :=
  ⟨pos, rotMod rot⟩

/-- Python `Config.new_from_atomic_pos0`. -/
def Config.new_from_atomic_pos0 (c : Config) (pos_dir : Bool) : Config :=
  Config.make (c.pos.1 + (if pos_dir then 1 else -1), c.pos.2) c.rot.val

/-- Python `Config.new_from_atomic_pos1`. -/
def Config.new_from_atomic_pos1 (c : Config) (pos_dir : Bool) : Config :=
  Config.make (c.pos.1, c.pos.2 + (if pos_dir then 1 else -1)) c.rot.val

/-- Python `Config.new_from_atomic_rot`. -/
def Config.new_from_atomic_rot (c : Config) (pos_dir : Bool) : Config :=
  Config.make c.pos (c.rot.val + (if pos_dir then 1 else -1))

/-- Python `Config.new_from_multi_pos0`. -/
def Config.new_from_multi_pos0 (c : Config) (delta : Int) : Config :=
  Config.make (c.pos.1 + delta, c.pos.2) c.rot.val

/-- Python `Config.new_from_multi_pos1`. -/
def Config.new_from_multi_pos1 (c : Config) (delta : Int) : Config :=
  Config.make (c.pos.1, c.pos.2 + delta) c.rot.val

/-- Python `Config.new_from_multi_rot`. -/
def Config.new_from_multi_rot (c : Config) (delta : Int) : Config :=
  Config.make c.pos (c.rot.val + delta)

/-- Python `Config.new_from_multi_pos`. -/
def Config.new_from_multi_pos (c : Config) (delta : Int × Int) : Config :=
  Config.make (c.pos.1 + delta.1, c.pos.2 + delta.2) c.rot.val

/-- Python `Config.new_from_multi` (delta given as a `Config`). -/
def Config.new_from_multi (c : Config) (delta : Config) : Config :=
  Config.make (c.pos.1 + delta.pos.1, c.pos.2 + delta.pos.2)
    (c.rot.val + delta.rot.val)

namespace RelCoord

/-- Python `RelCoord._rel_coords` of srs/coord.py: per pid (O I S Z L J T) and
per rotation, the four cell offsets relative to the reference position. -/
def rel_coords : List (List (List (Int × Int))) :=
  [ -- O
    [[(0, 1), (1, 1), (0, 2), (1, 2)],
     [(0, 1), (1, 1), (0, 2), (1, 2)],
     [(0, 1), (1, 1), (0, 2), (1, 2)],
     [(0, 1), (1, 1), (0, 2), (1, 2)]],
    -- I
    [[(1, 0), (1, 1), (1, 2), (1, 3)],
     [(0, 1), (1, 1), (2, 1), (3, 1)],
     [(2, 0), (2, 1), (2, 2), (2, 3)],
     [(0, 2), (1, 2), (2, 2), (3, 2)]],
    -- S
    [[(1, 0), (0, 1), (1, 1), (0, 2)],
     [(0, 0), (1, 0), (1, 1), (2, 1)],
     [(2, 0), (1, 1), (2, 1), (1, 2)],
     [(0, 1), (1, 1), (1, 2), (2, 2)]],
    -- Z
    [[(0, 0), (0, 1), (1, 1), (1, 2)],
     [(1, 0), (2, 0), (0, 1), (1, 1)],
     [(1, 0), (1, 1), (2, 1), (2, 2)],
     [(1, 1), (2, 1), (0, 2), (1, 2)]],
    -- L
    [[(1, 0), (1, 1), (0, 2), (1, 2)],
     [(0, 0), (0, 1), (1, 1), (2, 1)],
     [(1, 0), (2, 0), (1, 1), (1, 2)],
     [(0, 1), (1, 1), (2, 1), (2, 2)]],
    -- J
    [[(0, 0), (1, 0), (1, 1), (1, 2)],
     [(2, 0), (0, 1), (1, 1), (2, 1)],
     [(1, 0), (1, 1), (1, 2), (2, 2)],
     [(0, 1), (1, 1), (2, 1), (0, 2)]],
    -- T
    [[(1, 0), (0, 1), (1, 1), (1, 2)],
     [(1, 0), (0, 1), (1, 1), (2, 1)],
     [(1, 0), (1, 1), (2, 1), (1, 2)],
     [(0, 1), (1, 1), (2, 1), (1, 2)]]]

/-- Python `RelCoord.rel_range_o`: ((low0, high0 + 1), (low1, high1 + 1)) per rot. -/
def rel_range_o : List ((Int × Int) × (Int × Int)) :=
  [((0, 2), (1, 3)), ((0, 2), (1, 3)), ((0, 2), (1, 3)), ((0, 2), (1, 3))]

/-- Python `RelCoord.rel_range_i`. -/
def rel_range_i : List ((Int × Int) × (Int × Int)) :=
  [((1, 2), (0, 4)), ((0, 4), (1, 2)), ((2, 3), (0, 4)), ((0, 4), (2, 3))]

/-- Python `RelCoord.rel_range_szljt`. -/
def rel_range_szljt : List ((Int × Int) × (Int × Int)) :=
  [((0, 2), (0, 3)), ((0, 3), (0, 2)), ((1, 3), (0, 3)), ((0, 3), (1, 3))]

/-- Python `RelCoord.get_rel_coord`. -/
def get_rel_coord (pid : Nat) (rot : Fin 4) : List (Int × Int) :=
  (rel_coords.getD pid []).getD rot.val []

end RelCoord

/-- Python `Piece` of piece.py: pid, config, and the four absolute cells. -/
structure Piece where
  pid : Nat
  config : Config
  coord : List (Int × Int)
deriving DecidableEq, Repr

/-- Python `CoordFactory.get_coord`: cells = reference position + shape offsets. -/
def CoordFactory.get_coord (pid : Nat) (config : Config) : List (Int × Int) :=
  (RelCoord.get_rel_coord pid config.rot).map
    (fun s => (config.pos.1 + s.1, config.pos.2 + s.2))

/-- Python `Piece.from_init`. -/
def Piece.from_init (pid : Nat) (config : Config) : Piece :=
  ⟨pid, config, CoordFactory.get_coord pid config⟩

/-- Python `Piece.from_atomic_pos0`: the cells are shifted, not recomputed. -/
def Piece.from_atomic_pos0 (p : Piece) (positive_dir : Bool) : Piece :=
  ⟨p.pid, p.config.new_from_atomic_pos0 positive_dir,
   p.coord.map (fun c => (c.1 + (if positive_dir then 1 else -1), c.2))⟩

/-- Python `Piece.from_atomic_pos1`: the cells are shifted, not recomputed. -/
def Piece.from_atomic_pos1 (p : Piece) (positive_dir : Bool) : Piece :=
  ⟨p.pid, p.config.new_from_atomic_pos1 positive_dir,
   p.coord.map (fun c => (c.1, c.2 + (if positive_dir then 1 else -1)))⟩

/-- Python `Piece.from_atomic_rot`: the cells are recomputed from the table. -/
def Piece.from_atomic_rot (p : Piece) (positive_dir : Bool) : Piece :=
  ⟨p.pid, p.config.new_from_atomic_rot positive_dir,
   CoordFactory.get_coord p.pid (p.config.new_from_atomic_rot positive_dir)⟩

/-- Python `Piece.from_multi_pos0`: the cells are shifted. -/
def Piece.from_multi_pos0 (p : Piece) (delta : Int) : Piece :=
  ⟨p.pid, p.config.new_from_multi_pos0 delta,
   p.coord.map (fun c => (c.1 + delta, c.2))⟩

/-- Python `Piece.from_multi_pos1`: the cells are shifted. -/
def Piece.from_multi_pos1 (p : Piece) (delta : Int) : Piece :=
  ⟨p.pid, p.config.new_from_multi_pos1 delta,
   p.coord.map (fun c => (c.1, c.2 + delta))⟩

/-- Python `Piece.from_multi_rot`: the cells are recomputed from the table. -/
def Piece.from_multi_rot (p : Piece) (delta : Int) : Piece :=
  ⟨p.pid, p.config.new_from_multi_rot delta,
   CoordFactory.get_coord p.pid (p.config.new_from_multi_rot delta)⟩

/-- Python `Piece.from_multi_pos`: the cells are shifted by the 2D delta. -/
def Piece.from_multi_pos (p : Piece) (delta : Int × Int) : Piece :=
  ⟨p.pid, p.config.new_from_multi_pos delta,
   p.coord.map (fun c => (c.1 + delta.1, c.2 + delta.2))⟩

/-- Python `Piece.from_multi`: the cells are recomputed from the table. -/
def Piece.from_multi (p : Piece) (delta : Config) : Piece :=
  ⟨p.pid, p.config.new_from_multi delta,
   CoordFactory.get_coord p.pid (p.config.new_from_multi delta)⟩

/-- Python `Piece.to_absolute`: realized through `from_multi` on the difference
config (whose rotation the `Config` constructor reduces mod 4). -/
def Piece.to_absolute (p : Piece) (target : Config) : Piece :=
  Piece.from_multi p
    (Config.make (target.pos.1 - p.config.pos.1, target.pos.2 - p.config.pos.2)
      ((target.rot.val : Int) - p.config.rot.val))

/-- Python `Piece.to_absolute_pos`: realized through `from_multi_pos` on the
positional difference. -/
def Piece.to_absolute_pos (p : Piece) (target_pos : Int × Int) : Piece :=
  Piece.from_multi_pos p
    (target_pos.1 - p.config.pos.1, target_pos.2 - p.config.pos.2)

namespace Kick

/-- Python `Kick.srs_o`: a single zero-offset entry (defined in the source but,
as claim C1 records, never consulted by `get_srs_candidates`). -/
def srs_o : List (List (Int × Int)) := [[(0, 0)]]

/-- Python `Kick.srs_i`: 8 rows of 5 kick candidates. -/
def srs_i : List (List (Int × Int)) :=
  [[(0, 0), (0, 2), (0, -1), (-1, 2), (2, -1)],
   [(0, 0), (0, 1), (0, -2), (2, 1), (-1, -2)],
   [(0, 0), (0, -1), (0, 2), (-2, -1), (1, 2)],
   [(0, 0), (0, 2), (0, -1), (-1, 2), (2, -1)],
   [(0, 0), (0, -2), (0, 1), (1, -2), (-2, 1)],
   [(0, 0), (0, -1), (0, 2), (-2, -1), (1, 2)],
   [(0, 0), (0, 1), (0, -2), (2, 1), (-1, -2)],
   [(0, 0), (0, -2), (0, 1), (1, -2), (-2, 1)]]

/-- Python `Kick.srs_szljt`: 8 rows of 5 kick candidates. -/
def srs_szljt : List (List (Int × Int)) :=
  [[(0, 0), (0, 1), (1, 1), (-2, 0), (-2, 1)],
   [(0, 0), (0, -1), (1, -1), (-2, 0), (-2, -1)],
   [(0, 0), (0, 1), (-1, 1), (2, 0), (2, 1)],
   [(0, 0), (0, 1), (-1, 1), (2, 0), (2, 1)],
   [(0, 0), (0, -1), (1, -1), (-2, 0), (-2, -1)],
   [(0, 0), (0, 1), (1, 1), (-2, 0), (-2, 1)],
   [(0, 0), (0, -1), (-1, -1), (2, 0), (2, -1)],
   [(0, 0), (0, -1), (-1, -1), (2, 0), (2, -1)]]

/-- Python `Kick.get_srs_candidates`. The Python function is shape-heterogeneous:
for `pid == 0` it returns the whole 3-dimensional `srs_i` array (the `inl`
branch); for the other pids it returns one row of a table (the `inr`
branch). `idx = 2 * rot + (1 - positive_dir)` with `1 - True = 0`. -/
def get_srs_candidates (pid : Nat) (rot : Fin 4) (positive_dir : Bool) :
    List (List (Int × Int)) ⊕ List (Int × Int) :=
  if pid = 0 then Sum.inl srs_i
  else
    let idx := 2 * rot.val + (if positive_dir then 0 else 1)
    if pid = 1 then Sum.inr (srs_i.getD idx [])
    else Sum.inr (srs_szljt.getD idx [])

end Kick


/-- Python `Field` of field.py: the boolean occupancy grid. -/
structure Field where
  cells : List (List Bool)
deriving DecidableEq, Repr

/-- Python `field.shape[0]`. -/
def Field.rows (f : Field) : Nat := f.cells.length

/-- Python `field.shape[1]`. -/
def Field.cols (f : Field) : Nat := (f.cells.headD []).length

/-- Rectangularity, which numpy 2D arrays guarantee by construction. -/
def Field.wf (f : Field) : Prop := ∀ row ∈ f.cells, row.length = f.cols

instance (f : Field) : Decidable f.wf := by
  unfold Field.wf; infer_instance

/-- Lookup at nonnegative in-range indices (defaulting out of range). -/
def Field.cellN (f : Field) (i j : Nat) : Bool :=
  (f.cells.getD i []).getD j false

/-- numpy index resolution on one axis of length `n`: an index `i` with
`0 ≤ i < n` is used as is, an index with `-n ≤ i < 0` wraps to `n + i`,
and anything else raises `IndexError` (modelled as `none`). -/
def npIdx (n : Nat) (i : Int) : Option Nat :=
  if 0 ≤ i ∧ i < (n : Int) then some i.toNat
  else if -(n : Int) ≤ i ∧ i < 0 then some ((n : Int) + i).toNat
  else none

/-- Python `Field.at_one`: `self.field[coord[0], coord[1]]` with numpy index
semantics on both axes. -/
def Field.at_one (f : Field) (coord : Int × Int) : Option Bool :=
  match npIdx f.rows coord.1, npIdx f.cols coord.2 with
  | some i, some j => some (f.cellN i j)
  | _, _ => none

/-- Python `Field.has_collision` (via `Field.at` and `np.any`): true if any
candidate cell is occupied.  The Python code raises `IndexError` when a
coordinate falls outside the wrap range `[-n, n)`; the mover only reaches
this function on coordinates inside that range, and the embedding
totalizes the error case as unoccupied. -/
def Field.has_collision (f : Field) (candidates : List (Int × Int)) : Bool :=
  candidates.any (fun c => (f.at_one c).getD false)

/-- Python `Field._set_one` / element write, at nonnegative indices (all writes
performed by the line-clear pipeline use nonnegative indices). -/
def Field.setCell (f : Field) (i j : Nat) (v : Bool) : Field :=
  ⟨f.cells.set i ((f.cells.getD i []).set j v)⟩

/-- Python `Field.set_from_idx`: set every listed cell to the same value. -/
def Field.setMany (f : Field) (cs : List (Nat × Nat)) (v : Bool) : Field :=
  cs.foldl (fun g c => g.setCell c.1 c.2 v) f

/-- Python `Field._set_rows`: overwrite every listed row with a constant row. -/
def Field.setRows (f : Field) (rs : List Nat) (v : Bool) : Field :=
  ⟨rs.foldl (fun cs r => cs.set r (List.replicate f.cols v)) f.cells⟩

/-- Python `Field.idx_nonzero`: indices of the occupied cells of the rows
strictly above `higher_than` (row-major, like `np.nonzero`). -/
def Field.idx_nonzero (f : Field) (higher_than : Nat) : List (Nat × Nat) :=
  ((List.range (min higher_than f.rows)).map (fun i =>
    (List.range f.cols).filterMap (fun j =>
      if f.cellN i j then some (i, j) else none))).flatten

/-- Python `IndexFactory.make_shifted_pos0`: shift row indices downward. -/
def IndexFactory.make_shifted_pos0 (idx : List (Nat × Nat)) (shift : Nat) :
    List (Nat × Nat) :=
  idx.map (fun c => (c.1 + shift, c.2))

/-- Python `Field._full_row_num` on the half-open span `[lo, hi)` (numpy slices
clamp, which the `i < f.rows` filter reproduces); returns the absolute
indices of the full rows, in increasing order.  The Python `None` result
corresponds to the empty list, tested by the caller. -/
def Field.full_row_num (f : Field) (lo hi : Nat) : List Nat :=
  (List.range f.rows).filter (fun i =>
    decide (lo ≤ i) && decide (i < hi) && (f.cells.getD i []).all id)

/-- Python `np.min` over a nonempty integer array (0 on the empty array, which
the source excludes by precondition). -/
def minList : List Nat → Nat
  | [] => 0
  | x :: r => r.foldl min x

/-- The accumulator loop of `Field._break_into_chunks`: `curr` is the
chunk being grown, `chunks` the finished chunks. -/
def Field.break_chunks_aux : List Nat → List Nat → List (List Nat) → List (List Nat)
  | [], curr, chunks => chunks ++ [curr]
  | idx :: rest, curr, chunks =>
    if idx = curr.getLastD 0 + 1 then Field.break_chunks_aux rest (curr ++ [idx]) chunks
    else Field.break_chunks_aux rest [idx] (chunks ++ [curr])

/-- Python `Field._break_into_chunks`: break a strictly increasing index list
into maximal runs of consecutive indices.  The source requires a
nonempty input (it reads `all_lines[0]`); the empty case is unreachable
from `lineclear`. -/
def Field.break_into_chunks : List Nat → List (List Nat)
  | [] => []
  | x :: rest => Field.break_chunks_aux rest [x] []

/-- Python `Field._lineclear_chunk`: zero the rows of the chunk, then move every
occupied cell strictly above the chunk's top down by the chunk size
(clear the old cells first, then set the shifted ones). -/
def Field.lineclear_chunk (f : Field) (chunk : List Nat) : Field :=
  let f1 := f.setRows chunk false
  let higher_than := minList chunk
  let n_full_rows := chunk.length
  let nz := f1.idx_nonzero higher_than
  let f2 := f1.setMany nz false
  f2.setMany (IndexFactory.make_shifted_pos0 nz n_full_rows) true

/-- Python `Field.lineclear`: returns the list of cleared chunks together with
the resulting field (the Python method mutates the field in place). -/
def Field.lineclear (f : Field) (span_of_piece : Option (Nat × Nat)) :
    List (List Nat) × Field :=
  let target_range := span_of_piece.getD (0, f.rows)
  let full := f.full_row_num target_range.1 target_range.2
  if full.isEmpty then ([], f)
  else
    let chunks := Field.break_into_chunks full
    (chunks, chunks.foldl (fun g c => g.lineclear_chunk c) f)

namespace BoundaryAnalyzer

/-- Python `BoundaryAnalyzer._std_valid_range_o`. -/
def std_valid_range_o : List ((Int × Int) × (Int × Int)) :=
  [((0, 18), (-1, 7)), ((0, 18), (-1, 7)), ((0, 18), (-1, 7)), ((0, 18), (-1, 7))]

/-- Python `BoundaryAnalyzer._std_valid_range_i`. -/
def std_valid_range_i : List ((Int × Int) × (Int × Int)) :=
  [((-1, 18), (0, 6)), ((0, 16), (-1, 8)), ((-2, 17), (0, 6)), ((0, 16), (-2, 7))]

/-- Python `BoundaryAnalyzer._std_valid_range_szljt`. -/
def std_valid_range_szljt : List ((Int × Int) × (Int × Int)) :=
  [((0, 18), (0, 7)), ((0, 17), (0, 8)), ((-1, 17), (0, 7)), ((0, 17), (-1, 7))]

/-- Python `BoundaryAnalyzer._get_valid_range_all`: `limits - rel_range` with
`limits = ((0, size0), (0, size1))`, rotation-row-wise. -/
def get_valid_range_all (size0 size1 : Nat)
    (rel_range : List ((Int × Int) × (Int × Int))) :
    List ((Int × Int) × (Int × Int)) :=
  rel_range.map (fun rr =>
    ((0 - rr.1.1, (size0 : Int) - rr.1.2), (0 - rr.2.1, (size1 : Int) - rr.2.2)))

end BoundaryAnalyzer

/-- Python `BoundaryAnalyzer` of mover.py. -/
structure BoundaryAnalyzer where
  size0 : Nat
  size1 : Nat
  valid_range_o : List ((Int × Int) × (Int × Int))
  valid_range_i : List ((Int × Int) × (Int × Int))
  valid_range_szljt : List ((Int × Int) × (Int × Int))
deriving DecidableEq, Repr

/-- Python `BoundaryAnalyzer.__init__`: install the hard-coded tables for the
standard 20×10 field, otherwise compute them from the relative ranges. -/
def BoundaryAnalyzer.make (size0 size1 : Nat) : BoundaryAnalyzer :=
  if size0 = 20 ∧ size1 = 10 then
    ⟨size0, size1, BoundaryAnalyzer.std_valid_range_o,
     BoundaryAnalyzer.std_valid_range_i, BoundaryAnalyzer.std_valid_range_szljt⟩
  else
    ⟨size0, size1,
     BoundaryAnalyzer.get_valid_range_all size0 size1 RelCoord.rel_range_o,
     BoundaryAnalyzer.get_valid_range_all size0 size1 RelCoord.rel_range_i,
     BoundaryAnalyzer.get_valid_range_all size0 size1 RelCoord.rel_range_szljt⟩

/-- Table selection on the geometry class (`pid == 0` → O, `pid == 1` → I,
otherwise SZLJT), shared by `get_zero_pos` and `get_valid_range`. -/
def BoundaryAnalyzer.class_range (a : BoundaryAnalyzer) (pid : Nat) :
    List ((Int × Int) × (Int × Int)) :=
  if pid = 0 then a.valid_range_o
  else if pid = 1 then a.valid_range_i
  else a.valid_range_szljt

/-- Python `BoundaryAnalyzer.get_zero_pos`: the (minimum-pos0, minimum-pos1)
corner of the valid range. -/
def BoundaryAnalyzer.get_zero_pos (a : BoundaryAnalyzer) (pid : Nat)
    (rot : Fin 4) : Int × Int :=
  let row := (a.class_range pid).getD rot.val ((0, 0), (0, 0))
  (row.1.1, row.2.1)

/-- Python `BoundaryAnalyzer.get_valid_range`. -/
def BoundaryAnalyzer.get_valid_range (a : BoundaryAnalyzer) (pid : Nat)
    (rot : Fin 4) (is_pos0 pos_dir : Bool) : Int :=
  let row := (a.class_range pid).getD rot.val ((0, 0), (0, 0))
  let pr := if is_pos0 then row.1 else row.2
  if pos_dir then pr.2 else pr.1

/-- Python `Mover` of mover.py. -/
structure Mover where
  field : Field
  analyzer : BoundaryAnalyzer
deriving DecidableEq, Repr

/-- Python `Mover.__init__`. -/
def Mover.make (f : Field) : Mover := ⟨f, BoundaryAnalyzer.make f.rows f.cols⟩

/-- The check tuple of the boundary letter U: (in_pos0, in_pos_dir). -/
def checkU : Bool × Bool := (true, false)

/-- The check tuple of the boundary letter D. -/
def checkD : Bool × Bool := (true, true)

/-- The check tuple of the boundary letter L. -/
def checkL : Bool × Bool := (false, false)

/-- The check tuple of the boundary letter R. -/
def checkR : Bool × Bool := (false, true)

/-- The check string LRUD as the list of its check tuples. -/
def checkListLRUD : List (Bool × Bool) := [checkL, checkR, checkU, checkD]

/-- The check string LR as the list of its check tuples. -/
def checkListLR : List (Bool × Bool) := [checkL, checkR]

/-- Python `Mover._atomic_to_check_string`, with check strings as tuple lists. -/
def Mover.atomic_to_check_list (atomic_type : Nat) (positive_dir : Bool) :
    List (Bool × Bool) :=
  if atomic_type = 0 then (if positive_dir then [checkD] else [checkU])
  else if atomic_type = 1 then (if positive_dir then [checkR] else [checkL])
  else checkListLRUD

/-- Python `Mover._bad_boundary`: compare the relevant reference coordinate with
the analyzer's limit. -/
def Mover.bad_boundary (m : Mover) (p : Piece) (is_pos0 pos_dir : Bool) : Bool :=
  let relevant_pos := if is_pos0 then p.config.pos.1 else p.config.pos.2
  let limit := m.analyzer.get_valid_range p.pid p.config.rot is_pos0 pos_dir
  if pos_dir then decide (limit < relevant_pos) else decide (relevant_pos < limit)

/-- Python `Mover._bad_boundaries`: short-circuit over the check list. -/
def Mover.bad_boundaries (m : Mover) (p : Piece) (checks : List (Bool × Bool)) : Bool :=
  checks.any (fun cb => m.bad_boundary p cb.1 cb.2)

/-- Python `Mover.bad_boundaries_collision`: boundary checks first, then the
collision check. -/
def Mover.bad_boundaries_collision (m : Mover) (checks : List (Bool × Bool))
    (p : Piece) : Bool :=
  m.bad_boundaries p checks || m.field.has_collision p.coord

/-- Python `Mover._attempt_atomic_pos`. -/
def Mover.attempt_atomic_pos (m : Mover) (p : Piece) (in_pos0 positive_dir : Bool) :
    Option Piece :=
  let checks := Mover.atomic_to_check_list (if in_pos0 then 0 else 1) positive_dir
  let piece_new := if in_pos0 then Piece.from_atomic_pos0 p positive_dir
                   else Piece.from_atomic_pos1 p positive_dir
  if m.bad_boundaries_collision checks piece_new then none else some piece_new

/-- Python `Mover.attempt_atomic_pos0`. -/
def Mover.attempt_atomic_pos0 (m : Mover) (p : Piece) (positive_dir : Bool) :
    Option Piece :=
  m.attempt_atomic_pos p true positive_dir

/-- Python `Mover.attempt_atomic_pos1`. -/
def Mover.attempt_atomic_pos1 (m : Mover) (p : Piece) (positive_dir : Bool) :
    Option Piece :=
  m.attempt_atomic_pos p false positive_dir

/-- The candidate loop of `Mover._try_srs_shifts`: first legal shifted
piece wins. -/
def Mover.try_kicks (m : Mover) (p : Piece) : List (Int × Int) → Option Piece
  | [] => none
  | shift :: rest =>
    let piece_new := Piece.from_multi_pos p shift
    if m.bad_boundaries_collision checkListLRUD piece_new then m.try_kicks p rest
    else some piece_new

/-- Python `Mover._try_srs_shifts` (`p` is the piece AFTER the failed in-place
rotation).  In the `inl` branch (pid 0) the Python iteration feeds 5×2
matrices to `from_multi_pos`, which raises a broadcast `ValueError`;
the crash is modelled as `none` (see claim C1). -/
def Mover.try_srs_shifts (m : Mover) (p : Piece) (positive_dir : Bool) :
    Option Piece :=
  match Kick.get_srs_candidates p.pid p.config.rot positive_dir with
  | Sum.inl _ => none
  | Sum.inr shifts => m.try_kicks p shifts

/-- Python `Mover.attempt_atomic_rot`: in-place rotation first, kick candidates
on failure. -/
def Mover.attempt_atomic_rot (m : Mover) (p : Piece) (positive_dir : Bool) :
    Option Piece :=
  let piece_new := Piece.from_atomic_rot p positive_dir
  if m.bad_boundaries_collision (Mover.atomic_to_check_list 2 positive_dir) piece_new
  then m.try_srs_shifts piece_new positive_dir
  else some piece_new

/-- Python `Mover.attempt_atomic`: dispatch on the move type. -/
def Mover.attempt_atomic (m : Mover) (move_type : Nat) (p : Piece)
    (pos_dir : Bool) : Option Piece :=
  if move_type = 0 then m.attempt_atomic_pos0 p pos_dir
  else if move_type = 1 then m.attempt_atomic_pos1 p pos_dir
  else m.attempt_atomic_rot p pos_dir

/-- Python `Mover.multi_to_dir_delta`. -/
def Mover.multi_to_dir_delta (delta : Int) : Bool × Nat :=
  if delta > 0 then (true, delta.toNat) else (false, (-delta).toNat)

/-- The loop of `Mover.attempt_multi`: perform the given number of
atomics, failing the whole move as soon as one fails. -/
def Mover.attempt_multi_aux (m : Mover) (move_type : Nat) (positive_dir : Bool) :
    Nat → Piece → Option Piece
  | 0, p => some p
  | n + 1, p =>
    match m.attempt_atomic move_type p positive_dir with
    | none => none
    | some q => m.attempt_multi_aux move_type positive_dir n q

/-- Python `Mover.attempt_multi`. -/
def Mover.attempt_multi (m : Mover) (move_type : Nat) (p : Piece) (delta : Int) :
    Option Piece :=
  let dd := Mover.multi_to_dir_delta delta
  m.attempt_multi_aux move_type dd.1 dd.2 p

/-- Python `Mover.attempt_maxout`, with explicit fuel: the Python `while` loop
has no bound, so `none` means the loop is still running after `fuel`
iterations (claim C4 exhibits an input on which it runs forever). -/
def Mover.attempt_maxout (m : Mover) (move_type : Nat) (pos_dir : Bool) :
    Nat → Piece → Option Piece
  | 0, _ => none
  | fuel + 1, p =>
    match m.attempt_atomic move_type p pos_dir with
    | none => some p
    | some q => m.attempt_maxout move_type pos_dir fuel q

/-- Python `Mover.attempt_drop`. -/
def Mover.attempt_drop (m : Mover) (fuel : Nat) (p : Piece) : Option Piece :=
  m.attempt_maxout 0 true fuel p

/-- Python `Mover.attempt_pre`. -/
def Mover.attempt_pre (m : Mover) (p : Piece) (delta_rot delta_pos1 : Int) :
    Option Piece :=
  let p1 := if delta_rot = 0 then p else Piece.from_multi_rot p delta_rot
  let zero_pos := m.analyzer.get_zero_pos p1.pid p1.config.rot
  let p2 := Piece.to_absolute_pos p1 zero_pos
  let p3 := if delta_pos1 = 0 then p2 else Piece.from_multi_pos1 p2 delta_pos1
  if m.bad_boundaries_collision checkListLR p3 then none else some p3

/-- The empty standard 20×10 field. -/
def emptyStd : Field := ⟨List.replicate 20 (List.replicate 10 false)⟩

/-- The derived-cells invariant of claim C6: the four absolute cells are
exactly the deterministic function of pid and config. -/
def Piece.coherent (p : Piece) : Prop :=
  p.coord = CoordFactory.get_coord p.pid p.config

instance (p : Piece) : Decidable p.coherent := by
  unfold Piece.coherent; infer_instance

/-- The pieces produced by `from_init` and by chains of the move
constructors named in claim C6. -/
inductive Piece.Produced : Piece → Prop
  | init (pid : Nat) (config : Config) :
      Piece.Produced (Piece.from_init pid config)
  | atomic_pos0 (p : Piece) (d : Bool) :
      Piece.Produced p → Piece.Produced (Piece.from_atomic_pos0 p d)
  | atomic_pos1 (p : Piece) (d : Bool) :
      Piece.Produced p → Piece.Produced (Piece.from_atomic_pos1 p d)
  | atomic_rot (p : Piece) (d : Bool) :
      Piece.Produced p → Piece.Produced (Piece.from_atomic_rot p d)
  | multi_pos0 (p : Piece) (delta : Int) :
      Piece.Produced p → Piece.Produced (Piece.from_multi_pos0 p delta)
  | multi_pos1 (p : Piece) (delta : Int) :
      Piece.Produced p → Piece.Produced (Piece.from_multi_pos1 p delta)
  | multi_rot (p : Piece) (delta : Int) :
      Piece.Produced p → Piece.Produced (Piece.from_multi_rot p delta)
  | multi_pos (p : Piece) (delta : Int × Int) :
      Piece.Produced p → Piece.Produced (Piece.from_multi_pos p delta)
  | multi (p : Piece) (delta : Config) :
      Piece.Produced p → Piece.Produced (Piece.from_multi p delta)
  | absolute (p : Piece) (target : Config) :
      Piece.Produced p → Piece.Produced (Piece.to_absolute p target)
  | absolute_pos (p : Piece) (target : Int × Int) :
      Piece.Produced p → Piece.Produced (Piece.to_absolute_pos p target)

/-- Build a rows × cols field from a cell predicate. -/
def buildField (rows cols : Nat) (g : Nat → Nat → Bool) : Field :=
  ⟨(List.range rows).map (fun i => (List.range cols).map (g i))⟩

/-- Modelled from the spec (§4.3 clearLines): clearing one run of `n`
full rows whose top row is `top` zeroes the run and shifts every
occupied cell strictly above `top` downward by `n`, preserving its
column; cell-wise, row `r` of the result reads row `r - n` of the input
when `n ≤ r < top + n`, is empty when `r < n`, and is unchanged when
`top + n ≤ r`. -/
def specClearRun (f : Field) (top n : Nat) : Field :=
  buildField f.rows f.cols (fun r j =>
    if r < n then false
    else if r < top + n then f.cellN (r - n) j
    else f.cellN r j)

/-- Modelled from the spec (§4.5 attemptPre): direct construction of the
pre-placement result — the rotation delta applied mod 4 with no
legality check, the reference position forced to the zero position of
the new rotation with the horizontal delta added to its horizontal
coordinate, the cells derived from the shape table; failure iff the
left/right-boundary-plus-collision check rejects that piece. -/
def preSpec (m : Mover) (p : Piece) (delta_rot delta_pos1 : Int) : Option Piece :=
  let rot := rotMod ((p.config.rot.val : Int) + delta_rot)
  let z := m.analyzer.get_zero_pos p.pid rot
  let q := Piece.from_init p.pid ⟨(z.1, z.2 + delta_pos1), rot⟩
  if m.bad_boundaries_collision checkListLR q then none else some q

/-- Termination measure of a translation maxout: the distance from the
relevant reference coordinate to the analyzer's limit in the direction
of travel. -/
def Mover.transBound (m : Mover) (move_type : Nat) (pos_dir : Bool)
    (p : Piece) : Nat :=
  let limit := m.analyzer.get_valid_range p.pid p.config.rot (move_type = 0) pos_dir
  let pos := if move_type = 0 then p.config.pos.1 else p.config.pos.2
  if pos_dir then (limit - pos).toNat else (pos - limit).toNat

/-- A run: each index is the predecessor plus one. -/
def isRun (c : List Nat) : Prop := c.Chain' (fun a b => b = a + 1)

instance (c : List Nat) : Decidable (isRun c) := by
  unfold isRun; infer_instance

/-- The field of the C2 counterexample: standard 20×10, cells (7,4) and
(7,5) occupied. -/
def fieldC2 : Field := (emptyStd.setCell 7 4 true).setCell 7 5 true

/-- A 6×3 field whose full rows are 1, 2 and 4: two disjoint runs. -/
def fieldC5 : Field :=
  ⟨[[true, false, true], [true, true, true], [true, true, true],
    [false, true, false], [true, true, true], [false, false, true]]⟩

/-- Two runs are separated by a gap: the first index of the second run is
more than one past the last index of the first. -/
def gapped (c d : List Nat) : Prop := c.getLastD 0 + 1 < d.headD 0

theorem rotMod_coe (r : Fin 4) : rotMod ((r.val : Int)) = r := by
  apply Fin.ext
  have := r.isLt
  simp only [rotMod]
  omega

theorem get_coord_shift0 (pid : Nat) (c c' : Config) (d : Int)
    (hrot : c'.rot = c.rot) (hp : c'.pos = (c.pos.1 + d, c.pos.2)) :
    CoordFactory.get_coord pid c'
      = (CoordFactory.get_coord pid c).map (fun x => (x.1 + d, x.2)) := by
  unfold CoordFactory.get_coord
  rw [hrot, hp, List.map_map]
  apply List.map_congr_left
  intro s _
  simp only [Function.comp, Prod.mk.injEq]
  constructor <;> ring_nf

theorem get_coord_shift1 (pid : Nat) (c c' : Config) (d : Int)
    (hrot : c'.rot = c.rot) (hp : c'.pos = (c.pos.1, c.pos.2 + d)) :
    CoordFactory.get_coord pid c'
      = (CoordFactory.get_coord pid c).map (fun x => (x.1, x.2 + d)) := by
  unfold CoordFactory.get_coord
  rw [hrot, hp, List.map_map]
  apply List.map_congr_left
  intro s _
  simp only [Function.comp, Prod.mk.injEq]
  constructor <;> ring_nf

theorem get_coord_shift_pair (pid : Nat) (c c' : Config) (d : Int × Int)
    (hrot : c'.rot = c.rot) (hp : c'.pos = (c.pos.1 + d.1, c.pos.2 + d.2)) :
    CoordFactory.get_coord pid c'
      = (CoordFactory.get_coord pid c).map (fun x => (x.1 + d.1, x.2 + d.2)) := by
  unfold CoordFactory.get_coord
  rw [hrot, hp, List.map_map]
  apply List.map_congr_left
  intro s _
  simp only [Function.comp, Prod.mk.injEq]
  constructor <;> ring_nf

theorem eq_from_init_of_coherent (p : Piece) (h : p.coherent) :
    p = Piece.from_init p.pid p.config := by
  cases p with
  | mk pid config coord =>
    simp only [Piece.from_init, Piece.mk.injEq, true_and]
    exact h

/-- C6: every piece produced by `from_init` or by any of the move
constructors (`from_atomic_pos0/pos1/rot`, `from_multi_pos0/pos1/rot`,
`from_multi_pos`, `from_multi`, `to_absolute`, `to_absolute_pos`)
satisfies `coord = config.pos + RelCoord.get_rel_coord pid config.rot`,
even for the constructors that update the cells by shifting instead of
recomputing them from the table. -/
theorem claim_C6 (p : Piece) (h : p.Produced) : p.coherent := by
  induction h with
  | init pid config => rfl
  | atomic_pos0 p d _ ih =>
    unfold Piece.coherent Piece.from_atomic_pos0 at *
    rw [ih, ← get_coord_shift0 p.pid p.config _ (if d then 1 else -1)]
    · simp [Config.new_from_atomic_pos0, Config.make, rotMod_coe]
    · rfl
  | atomic_pos1 p d _ ih =>
    unfold Piece.coherent Piece.from_atomic_pos1 at *
    rw [ih, ← get_coord_shift1 p.pid p.config _ (if d then 1 else -1)]
    · simp [Config.new_from_atomic_pos1, Config.make, rotMod_coe]
    · rfl
  | atomic_rot p d _ _ => rfl
  | multi_pos0 p delta _ ih =>
    unfold Piece.coherent Piece.from_multi_pos0 at *
    rw [ih, ← get_coord_shift0 p.pid p.config _ delta]
    · simp [Config.new_from_multi_pos0, Config.make, rotMod_coe]
    · rfl
  | multi_pos1 p delta _ ih =>
    unfold Piece.coherent Piece.from_multi_pos1 at *
    rw [ih, ← get_coord_shift1 p.pid p.config _ delta]
    · simp [Config.new_from_multi_pos1, Config.make, rotMod_coe]
    · rfl
  | multi_rot p delta _ _ => rfl
  | multi_pos p delta _ ih =>
    unfold Piece.coherent Piece.from_multi_pos at *
    rw [ih, ← get_coord_shift_pair p.pid p.config _ delta]
    · simp [Config.new_from_multi_pos, Config.make, rotMod_coe]
    · rfl
  | multi p delta _ _ => rfl
  | absolute p target _ _ => rfl
  | absolute_pos p target _ ih =>
    unfold Piece.coherent Piece.to_absolute_pos Piece.from_multi_pos at *
    rw [ih, ← get_coord_shift_pair p.pid p.config _
          (target.1 - p.config.pos.1, target.2 - p.config.pos.2)]
    · simp [Config.new_from_multi_pos, Config.make, rotMod_coe]
    · rfl

theorem claim_C6_witness :
    Piece.Produced (Piece.from_atomic_pos0 (Piece.from_init 6 (Config.make (5, 4) 0)) true)
    ∧ (Piece.from_atomic_pos0 (Piece.from_init 6 (Config.make (5, 4) 0)) true).coherent :=
  ⟨Piece.Produced.atomic_pos0 _ true (Piece.Produced.init 6 (Config.make (5, 4) 0)),
   claim_C6 _ (Piece.Produced.atomic_pos0 _ true (Piece.Produced.init 6 (Config.make (5, 4) 0)))⟩

theorem attempt_multi_aux_fail (m : Mover) (move_type : Nat) (dir : Bool) :
    ∀ (k n : Nat) (p q : Piece), k < n →
      m.attempt_multi_aux move_type dir k p = some q →
      m.attempt_atomic move_type q dir = none →
      m.attempt_multi_aux move_type dir n p = none := by
  intro k
  induction k with
  | zero =>
    intro n p q hk hs hf
    simp only [Mover.attempt_multi_aux, Option.some.injEq] at hs
    subst hs
    match n, hk with
    | n + 1, _ => simp [Mover.attempt_multi_aux, hf]
  | succ k ih =>
    intro n p q hk hs hf
    rw [Mover.attempt_multi_aux] at hs
    cases hstep : m.attempt_atomic move_type p dir with
    | none => rw [hstep] at hs; exact absurd hs (by simp)
    | some p1 =>
      rw [hstep] at hs
      match n, hk with
      | n + 1, hk =>
        rw [Mover.attempt_multi_aux, hstep]
        exact ih n p1 q (by omega) hs hf

/-- C3: `attempt_multi` is all-or-nothing — whenever the first `k` atomic
steps succeed (yielding `q`) and the next atomic step fails, with
`k + 1` within the step count `|delta|`, the whole multi returns the
failure signal `none` (the embedding of Python `None`); the partial
progress `q` is never returned, and the caller's piece value is a pure
value which the operation cannot mutate. -/
theorem claim_C3 (m : Mover) (move_type : Nat) (p : Piece) (delta : Int)
    (k : Nat) (q : Piece)
    (hk : k < (Mover.multi_to_dir_delta delta).2)
    (hsteps : m.attempt_multi_aux move_type (Mover.multi_to_dir_delta delta).1 k p = some q)
    (hfail : m.attempt_atomic move_type q (Mover.multi_to_dir_delta delta).1 = none) :
    m.attempt_multi move_type p delta = none := by
  unfold Mover.attempt_multi
  exact attempt_multi_aux_fail m move_type _ k _ p q hk hsteps hfail

theorem claim_C3_witness :
    (0 < (Mover.multi_to_dir_delta (-1)).2
      ∧ Mover.attempt_multi_aux (Mover.make emptyStd) 1 (Mover.multi_to_dir_delta (-1)).1 0
          (Piece.from_init 1 (Config.make (5, 0) 0))
          = some (Piece.from_init 1 (Config.make (5, 0) 0))
      ∧ Mover.attempt_atomic (Mover.make emptyStd) 1
          (Piece.from_init 1 (Config.make (5, 0) 0))
          (Mover.multi_to_dir_delta (-1)).1 = none)
    ∧ Mover.attempt_multi (Mover.make emptyStd) 1
        (Piece.from_init 1 (Config.make (5, 0) 0)) (-1) = none :=
  ⟨⟨by decide, by decide, by decide⟩,
   claim_C3 (Mover.make emptyStd) 1 (Piece.from_init 1 (Config.make (5, 0) 0)) (-1) 0
     (Piece.from_init 1 (Config.make (5, 0) 0)) (by decide) (by decide) (by decide)⟩

theorem attempt_maxout_stops (m : Mover) (move_type : Nat) (pos_dir : Bool) :
    ∀ (n : Nat) (p q : Piece), m.attempt_maxout move_type pos_dir n p = some q →
      m.attempt_atomic move_type q pos_dir = none := by
  intro n
  induction n with
  | zero => intro p q h; exact absurd h (by simp [Mover.attempt_maxout])
  | succ n ih =>
    intro p q h
    rw [Mover.attempt_maxout] at h
    cases hstep : m.attempt_atomic move_type p pos_dir with
    | none =>
      rw [hstep] at h
      simp only [Option.some.injEq] at h
      subst h
      exact hstep
    | some r => rw [hstep] at h; exact ih r q h

/-- C9: `attempt_maxout` is idempotent — if a maxout (run with enough
fuel to terminate, returning `q`) is applied again with the same move
type and direction and any positive fuel, the result is the same piece
`q` again. -/
theorem claim_C9 (m : Mover) (move_type : Nat) (pos_dir : Bool)
    (fuel fuel2 : Nat) (p q : Piece)
    (h : m.attempt_maxout move_type pos_dir fuel p = some q)
    (h2 : 1 ≤ fuel2) :
    m.attempt_maxout move_type pos_dir fuel2 q = some q := by
  have hstop := attempt_maxout_stops m move_type pos_dir fuel p q h
  match fuel2, h2 with
  | f + 1, _ => simp [Mover.attempt_maxout, hstop]

theorem claim_C9_witness :
    (Mover.attempt_maxout (Mover.make emptyStd) 0 true 30
        (Piece.from_init 6 (Config.make (5, 4) 0))
        = some (Piece.from_init 6 (Config.make (18, 4) 0))
      ∧ 1 ≤ 30)
    ∧ Mover.attempt_maxout (Mover.make emptyStd) 0 true 30
        (Piece.from_init 6 (Config.make (18, 4) 0))
        = some (Piece.from_init 6 (Config.make (18, 4) 0)) :=
  ⟨⟨by decide, by decide⟩,
   claim_C9 (Mover.make emptyStd) 0 true 30 30
     (Piece.from_init 6 (Config.make (5, 4) 0))
     (Piece.from_init 6 (Config.make (18, 4) 0)) (by decide) (by decide)⟩

/-- C4 counterexample: on the standard empty 20×10 field a legal T piece
in the middle of the field rotates successfully forever, so the maxout
loop for the rotation move type is still running after rows·cols + 1
atomic steps — no bound derived from the grid dimensions terminates it,
refuting the claim for the rotation move type. -/
theorem claim_C4_counterexample :
    Mover.bad_boundaries_collision (Mover.make emptyStd) checkListLRUD
        (Piece.from_init 6 (Config.make (5, 4) 0)) = false
    ∧ Mover.attempt_maxout (Mover.make emptyStd) 2 true
        (emptyStd.rows * emptyStd.cols + 1)
        (Piece.from_init 6 (Config.make (5, 4) 0)) = none := by
  constructor
  · decide
  · decide

theorem attempt_atomic_pos_facts (m : Mover) (p p' : Piece) (in_pos0 pos_dir : Bool)
    (h : m.attempt_atomic_pos p in_pos0 pos_dir = some p') :
    p'.pid = p.pid ∧ p'.config.rot = p.config.rot
    ∧ (if in_pos0 then (p'.config.pos.1 = p.config.pos.1 + (if pos_dir then 1 else -1)
          ∧ p'.config.pos.2 = p.config.pos.2)
       else (p'.config.pos.2 = p.config.pos.2 + (if pos_dir then 1 else -1)
          ∧ p'.config.pos.1 = p.config.pos.1))
    ∧ m.bad_boundary p' in_pos0 pos_dir = false := by
  cases in_pos0 <;> cases pos_dir <;>
    (simp only [Mover.attempt_atomic_pos, Bool.false_eq_true, if_true, if_false,
       Mover.atomic_to_check_list, if_pos, reduceIte] at h
     split at h <;> simp_all [Mover.bad_boundaries_collision, Mover.bad_boundaries,
       checkD, checkU, checkR, checkL,
       Piece.from_atomic_pos0, Piece.from_atomic_pos1,
       Config.new_from_atomic_pos0, Config.new_from_atomic_pos1,
       Config.make, rotMod_coe]) <;>
    first
    | (obtain ⟨⟨hbb, -⟩, heq⟩ := h
       subst heq
       simp_all)
    | (subst h
       simp_all)
theorem attempt_atomic_trans_decrease (m : Mover) (move_type : Nat) (pos_dir : Bool)
    (p p' : Piece) (hmt : move_type = 0 ∨ move_type = 1)
    (h : m.attempt_atomic move_type p pos_dir = some p') :
    m.transBound move_type pos_dir p' < m.transBound move_type pos_dir p := by
  rcases hmt with rfl | rfl
  · obtain ⟨hpid, hrot, hpos, hbb⟩ := attempt_atomic_pos_facts m p p' true pos_dir
      (by simpa [Mover.attempt_atomic, Mover.attempt_atomic_pos0] using h)
    simp only [if_true] at hpos
    obtain ⟨hpos1, -⟩ := hpos
    unfold Mover.bad_boundary at hbb
    simp only [if_true, hpid, hrot, hpos1] at hbb
    simp only [Mover.transBound, hpid, hrot, hpos1]
    cases pos_dir <;> simp_all
  · obtain ⟨hpid, hrot, hpos, hbb⟩ := attempt_atomic_pos_facts m p p' false pos_dir
      (by simpa [Mover.attempt_atomic, Mover.attempt_atomic_pos1] using h)
    simp only [Bool.false_eq_true, if_false] at hpos
    obtain ⟨hpos2, -⟩ := hpos
    unfold Mover.bad_boundary at hbb
    simp only [if_false, hpid, hrot, hpos2] at hbb
    simp only [Mover.transBound, hpid, hrot, hpos2]
    cases pos_dir <;> simp_all
/-- C4 (amended): for the translation move types (0 and 1) `attempt_maxout`
terminates — it needs at most `transBound` (the distance from the
reference coordinate to the analyzer's boundary limit) + 1 atomic steps,
a quantity bounded by the grid dimension for legal pieces — and returns a
piece: the last legal state, defaulting to the input piece when the very
first atomic attempt fails; for the rotation move type the loop need not
terminate (see the counterexample). -/
theorem claim_C4_amended (m : Mover) (move_type : Nat) (pos_dir : Bool)
    (p : Piece) (fuel : Nat) (hmt : move_type = 0 ∨ move_type = 1)
    (hfuel : m.transBound move_type pos_dir p < fuel) :
    ∃ q, m.attempt_maxout move_type pos_dir fuel p = some q
      ∧ m.attempt_atomic move_type q pos_dir = none
      ∧ (m.attempt_atomic move_type p pos_dir = none → q = p) := by
  induction fuel generalizing p with
  | zero => omega
  | succ fuel ih =>
    cases hstep : m.attempt_atomic move_type p pos_dir with
    | none =>
      refine ⟨p, ?_, hstep, fun _ => rfl⟩
      simp only [Mover.attempt_maxout, hstep]
    | some p1 =>
      have hdec := attempt_atomic_trans_decrease m move_type pos_dir p p1 hmt hstep
      obtain ⟨q, h1, h2, -⟩ := ih p1 (by omega)
      refine ⟨q, ?_, h2, fun hnone => by simp [hstep] at hnone⟩
      simp only [Mover.attempt_maxout, hstep]
      exact h1

theorem claim_C4_witness :
    ((0 = 0 ∨ 0 = 1)
      ∧ Mover.transBound (Mover.make emptyStd) 0 true
          (Piece.from_init 6 (Config.make (5, 4) 0)) < 14)
    ∧ ∃ q, Mover.attempt_maxout (Mover.make emptyStd) 0 true 14
          (Piece.from_init 6 (Config.make (5, 4) 0)) = some q
        ∧ Mover.attempt_atomic (Mover.make emptyStd) 0 q true = none
        ∧ (Mover.attempt_atomic (Mover.make emptyStd) 0
              (Piece.from_init 6 (Config.make (5, 4) 0)) true = none
            → q = Piece.from_init 6 (Config.make (5, 4) 0)) :=
  ⟨⟨Or.inl rfl, by decide⟩,
   claim_C4_amended (Mover.make emptyStd) 0 true
     (Piece.from_init 6 (Config.make (5, 4) 0)) 14 (Or.inl rfl) (by decide)⟩

/-- C1: contrary to the claim, the kick-candidate lookup for the O piece
(pid 0) does not return the one-element zero-offset list: for every
rotation state and direction it returns the whole 8-row I-piece table
`srs_i` (the defined-but-never-consulted `srs_o` records the intended
single zero-offset entry). -/
theorem claim_C1_bug_eval :
    (∀ (rot : Fin 4) (d : Bool),
        Kick.get_srs_candidates 0 rot d = Sum.inl Kick.srs_i)
    ∧ Kick.srs_o = [[(0, 0)]]
    ∧ Kick.srs_i.length = 8 := by
  exact ⟨fun rot d => rfl, rfl, rfl⟩

/-- C8: for the standard 20×10 grid the literal precomputed boundary
tables that the analyzer installs are equal, entry for entry over every
geometry class, rotation state, axis and direction, to the output of the
general formula that subtracts the shape's per-axis relative range from
the grid limits. -/
theorem claim_C8 :
    (BoundaryAnalyzer.make 20 10).valid_range_o
        = BoundaryAnalyzer.get_valid_range_all 20 10 RelCoord.rel_range_o
    ∧ (BoundaryAnalyzer.make 20 10).valid_range_i
        = BoundaryAnalyzer.get_valid_range_all 20 10 RelCoord.rel_range_i
    ∧ (BoundaryAnalyzer.make 20 10).valid_range_szljt
        = BoundaryAnalyzer.get_valid_range_all 20 10 RelCoord.rel_range_szljt
    ∧ (BoundaryAnalyzer.make 20 10).valid_range_o = BoundaryAnalyzer.std_valid_range_o
    ∧ (BoundaryAnalyzer.make 20 10).valid_range_i = BoundaryAnalyzer.std_valid_range_i
    ∧ (BoundaryAnalyzer.make 20 10).valid_range_szljt
        = BoundaryAnalyzer.std_valid_range_szljt := by
  decide

/-- C10: the occupancy query does not reject off-grid coordinates whose
components lie in `[-n, 0)` but wraps them to the opposite edge: a row
component `r` with `-rows ≤ r < 0` reads row `rows + r` (and a column
component symmetrically reads column `cols + c`), so `has_collision` for
a piece partly above row 0 reports occupancy of the bottom rows instead
of failing or treating those cells as empty. -/
theorem claim_C10 (f : Field) (r c : Int) (cs : List (Int × Int))
    (hr1 : -(f.rows : Int) ≤ r) (hr2 : r < 0)
    (hc1 : 0 ≤ c) (hc2 : c < (f.cols : Int)) :
    f.at_one (r, c) = some (f.cellN ((f.rows : Int) + r).toNat c.toNat)
    ∧ f.has_collision ((r, c) :: cs)
        = (f.cellN ((f.rows : Int) + r).toNat c.toNat || f.has_collision cs)
    ∧ ∀ r2 c2 : Int, 0 ≤ r2 → r2 < (f.rows : Int) → -(f.cols : Int) ≤ c2 → c2 < 0 →
        f.at_one (r2, c2) = some (f.cellN r2.toNat ((f.cols : Int) + c2).toNat) := by
  have key : f.at_one (r, c) = some (f.cellN ((f.rows : Int) + r).toNat c.toNat) := by
    simp only [Field.at_one, npIdx]
    rw [if_neg (by omega), if_pos (by omega), if_pos (by omega)]
  refine ⟨key, ?_, ?_⟩
  · simp [Field.has_collision, key]
  · intro r2 c2 h1 h2 h3 h4
    simp only [Field.at_one, npIdx]
    rw [if_pos (by omega), if_neg (by omega), if_pos (by omega)]

theorem claim_C10_witness :
    (-((emptyStd.setCell 19 3 true).rows : Int) ≤ -1 ∧ (-1 : Int) < 0
      ∧ (0 : Int) ≤ 3 ∧ (3 : Int) < ((emptyStd.setCell 19 3 true).cols : Int))
    ∧ ((emptyStd.setCell 19 3 true).at_one (-1, 3)
        = some ((emptyStd.setCell 19 3 true).cellN
            (((emptyStd.setCell 19 3 true).rows : Int) + -1).toNat (3 : Int).toNat)
      ∧ (emptyStd.setCell 19 3 true).has_collision [(-1, 3)]
          = ((emptyStd.setCell 19 3 true).cellN
              (((emptyStd.setCell 19 3 true).rows : Int) + -1).toNat (3 : Int).toNat
            || (emptyStd.setCell 19 3 true).has_collision [])
      ∧ ∀ r2 c2 : Int, 0 ≤ r2 → r2 < ((emptyStd.setCell 19 3 true).rows : Int) →
          -((emptyStd.setCell 19 3 true).cols : Int) ≤ c2 → c2 < 0 →
          (emptyStd.setCell 19 3 true).at_one (r2, c2)
            = some ((emptyStd.setCell 19 3 true).cellN r2.toNat
                (((emptyStd.setCell 19 3 true).cols : Int) + c2).toNat)) :=
  ⟨⟨by decide, by decide, by decide, by decide⟩,
   claim_C10 (emptyStd.setCell 19 3 true) (-1) 3 []
     (by decide) (by decide) (by decide) (by decide)⟩

theorem coherent_from_init (pid : Nat) (config : Config) :
    (Piece.from_init pid config).coherent := rfl

theorem to_absolute_pos_of_coherent (p : Piece) (h : p.coherent) (z : Int × Int) :
    p.to_absolute_pos z = Piece.from_init p.pid ⟨z, p.config.rot⟩ := by
  unfold Piece.to_absolute_pos Piece.from_multi_pos Piece.from_init
  simp only [Piece.mk.injEq, true_and]
  constructor
  · unfold Config.new_from_multi_pos Config.make
    simp only [Config.mk.injEq]
    constructor
    · apply Prod.ext <;> simp
    · exact rotMod_coe _
  · rw [h]
    refine (get_coord_shift_pair p.pid p.config ⟨z, p.config.rot⟩
      (z.1 - p.config.pos.1, z.2 - p.config.pos.2) rfl ?_).symm
    apply Prod.ext <;> simp

theorem from_multi_pos1_from_init (pid : Nat) (cfg : Config) (d : Int) :
    Piece.from_multi_pos1 (Piece.from_init pid cfg) d
      = Piece.from_init pid ⟨(cfg.pos.1, cfg.pos.2 + d), cfg.rot⟩ := by
  unfold Piece.from_multi_pos1 Piece.from_init
  simp only [Piece.mk.injEq, true_and]
  constructor
  · unfold Config.new_from_multi_pos1 Config.make
    simp only [Config.mk.injEq, true_and]
    exact rotMod_coe _
  · exact (get_coord_shift1 pid cfg ⟨(cfg.pos.1, cfg.pos.2 + d), cfg.rot⟩ d rfl rfl).symm

/-- C7: attempt_pre applies the rotation delta with no legality check,
forces the reference position to the zero position of the new rotation,
adds the horizontal delta directly to the horizontal coordinate, and
fails iff the final check restricted to the left/right boundaries plus
collision rejects the resulting piece; on success the returned piece's
horizontal reference coordinate is the zero position's horizontal value
plus the horizontal delta (statement as equality with the spec-modelled
direct construction `preSpec`). -/
theorem from_init_pid (pid : Nat) (cfg : Config) :
    (Piece.from_init pid cfg).pid = pid := rfl

theorem from_init_config (pid : Nat) (cfg : Config) :
    (Piece.from_init pid cfg).config = cfg := rfl

/-- C7: attempt_pre applies the rotation delta with no legality check,
forces the reference position to the zero position of the new rotation,
adds the horizontal delta directly to the horizontal coordinate, and
fails iff the final check restricted to the left/right boundaries plus
collision rejects the resulting piece; on success the returned piece's
horizontal reference coordinate is the zero position's horizontal value
plus the horizontal delta (stated as equality with the spec-modelled
direct construction `preSpec`). -/
theorem claim_C7 (m : Mover) (p : Piece) (delta_rot delta_pos1 : Int)
    (h : p.coherent) :
    m.attempt_pre p delta_rot delta_pos1 = preSpec m p delta_rot delta_pos1 := by
  have hrot0 : rotMod ((p.config.rot.val : Int) + 0) = p.config.rot := by
    rw [add_zero]; exact rotMod_coe _
  have hp1 : (if delta_rot = 0 then p else Piece.from_multi_rot p delta_rot)
      = Piece.from_init p.pid ⟨p.config.pos, rotMod ((p.config.rot.val : Int) + delta_rot)⟩ := by
    split
    · next h0 =>
      subst h0
      rw [hrot0]
      exact eq_from_init_of_coherent p h
    · rfl
  simp only [Mover.attempt_pre, preSpec]
  rw [hp1]
  rw [to_absolute_pos_of_coherent _ (coherent_from_init _ _)]
  simp only [from_init_pid, from_init_config]
  split
  · next h0 =>
    subst h0
    simp
  · rw [from_multi_pos1_from_init]

theorem claim_C7_witness :
    (Piece.from_init 1 (Config.make (-4, 0) 0)).coherent
    ∧ Mover.attempt_pre (Mover.make emptyStd)
        (Piece.from_init 1 (Config.make (-4, 0) 0)) 0 0
      = preSpec (Mover.make emptyStd) (Piece.from_init 1 (Config.make (-4, 0) 0)) 0 0 :=
  ⟨rfl, claim_C7 (Mover.make emptyStd) (Piece.from_init 1 (Config.make (-4, 0) 0)) 0 0 rfl⟩

/-- C2 counterexample: for the S piece (pid 2) at rotation 0 with a
positive rotation on a field where the in-place rotation fails, the
resolver returns the piece kicked by offset (-1, 1) — an offset that the
kick row at the claim's flat index 2·0 + 0 (computed from the
pre-rotation state) does not contain, so the candidate list the resolver
iterates is not the one the claim selects. -/
theorem claim_C2_counterexample :
    Mover.bad_boundaries_collision (Mover.make fieldC2) checkListLRUD
        (Piece.from_atomic_rot (Piece.from_init 2 (Config.make (5, 3) 0)) true) = true
    ∧ Mover.attempt_atomic_rot (Mover.make fieldC2)
        (Piece.from_init 2 (Config.make (5, 3) 0)) true
      = some (Piece.from_init 2 (Config.make (4, 4) 1))
    ∧ ((Kick.srs_szljt.getD (2 * 0 + (if true then 0 else 1)) []).all
        (fun s => decide (¬((5 : Int) + s.1 = 4 ∧ (3 : Int) + s.2 = 4))) = true) :=
  ⟨by decide, by decide, by decide⟩

/-- C2 (amended): for every non-O piece whose in-place rotation fails
the legality check, the ordered kick-candidate list the rotation
resolver then iterates is the entry at flat index
2·r' + (1 if the direction is negative else 0) of the piece's per-class
8-entry kick table, where r' is the DESTINATION rotation state — the
state after the in-place rotation — not the pre-rotation state. -/
theorem claim_C2_amended (m : Mover) (p : Piece) (d : Bool)
    (hpid : p.pid ≠ 0)
    (hfail : m.bad_boundaries_collision (Mover.atomic_to_check_list 2 d)
        (Piece.from_atomic_rot p d) = true) :
    m.attempt_atomic_rot p d
      = m.try_kicks (Piece.from_atomic_rot p d)
          ((if p.pid = 1 then Kick.srs_i else Kick.srs_szljt).getD
            (2 * ((p.config.rot.val + (if d then 1 else 3)) % 4)
              + (if d then 0 else 1)) []) := by
  have hrotval : (Piece.from_atomic_rot p d).config.rot.val
      = (p.config.rot.val + (if d then 1 else 3)) % 4 := by
    have := p.config.rot.isLt
    cases d <;>
      simp [Piece.from_atomic_rot, Config.new_from_atomic_rot, Config.make, rotMod] <;>
      omega
  simp only [Mover.attempt_atomic_rot, hfail, if_true]
  unfold Mover.try_srs_shifts Kick.get_srs_candidates
  have hpid' : (Piece.from_atomic_rot p d).pid = p.pid := rfl
  rw [hpid', hrotval, if_neg hpid]
  by_cases hp1 : p.pid = 1
  · simp only [if_pos hp1]
  · simp only [if_neg hp1]

theorem claim_C2_witness :
    ((Piece.from_init 2 (Config.make (5, 3) 0)).pid ≠ 0
      ∧ Mover.bad_boundaries_collision (Mover.make fieldC2)
          (Mover.atomic_to_check_list 2 true)
          (Piece.from_atomic_rot (Piece.from_init 2 (Config.make (5, 3) 0)) true) = true)
    ∧ Mover.attempt_atomic_rot (Mover.make fieldC2)
        (Piece.from_init 2 (Config.make (5, 3) 0)) true
      = Mover.try_kicks (Mover.make fieldC2)
          (Piece.from_atomic_rot (Piece.from_init 2 (Config.make (5, 3) 0)) true)
          ((if (Piece.from_init 2 (Config.make (5, 3) 0)).pid = 1
              then Kick.srs_i else Kick.srs_szljt).getD
            (2 * (((Piece.from_init 2 (Config.make (5, 3) 0)).config.rot.val
                + (if true then 1 else 3)) % 4)
              + (if true then 0 else 1)) []) :=
  ⟨⟨by decide, by decide⟩,
   claim_C2_amended (Mover.make fieldC2) (Piece.from_init 2 (Config.make (5, 3) 0)) true
     (by decide) (by decide)⟩

theorem getD_set_self (l : List (List Bool)) (n : Nat) (x d : List Bool)
    (h : n < l.length) : (l.set n x).getD n d = x := by
  rw [List.getD_eq_getElem _ _ (by simpa using h)]
  simp [List.getElem_set, h]

theorem getD_set_ne (l : List (List Bool)) (m n : Nat) (x d : List Bool)
    (h : m ≠ n) : (l.set m x).getD n d = l.getD n d := by
  simp [List.getD_eq_getElem?_getD, List.getElem?_set_ne h]

theorem getD_row_set_self (l : List Bool) (n : Nat) (x d : Bool)
    (h : n < l.length) : (l.set n x).getD n d = x := by
  rw [List.getD_eq_getElem _ _ (by simpa using h)]
  simp [List.getElem_set, h]

theorem getD_row_set_ne (l : List Bool) (m n : Nat) (x d : Bool)
    (h : m ≠ n) : (l.set m x).getD n d = l.getD n d := by
  simp [List.getD_eq_getElem?_getD, List.getElem?_set_ne h]

theorem headD_eq_getD (l : List (List Bool)) : l.headD [] = l.getD 0 [] := by
  cases l <;> rfl

theorem row_length_of_wf (f : Field) (hwf : f.wf) (i : Nat) (hi : i < f.rows) :
    (f.cells.getD i []).length = f.cols := by
  apply hwf
  rw [List.getD_eq_getElem _ _ (by simpa [Field.rows] using hi)]
  exact List.getElem_mem _

theorem rows_setCell (f : Field) (a b : Nat) (v : Bool) :
    (f.setCell a b v).rows = f.rows := by
  simp [Field.setCell, Field.rows]

theorem cols_setCell (f : Field) (a b : Nat) (v : Bool) :
    (f.setCell a b v).cols = f.cols := by
  unfold Field.cols Field.setCell
  cases hc : f.cells with
  | nil => simp
  | cons r rest => cases a <;> simp [hc]

theorem wf_setCell (f : Field) (hwf : f.wf) (a b : Nat) (v : Bool) :
    (f.setCell a b v).wf := by
  intro row hrow
  rw [cols_setCell]
  simp only [Field.setCell] at hrow
  by_cases ha : a < f.rows
  · rcases List.mem_or_eq_of_mem_set hrow with h | h
    · exact hwf row h
    · subst h
      rw [List.length_set]
      exact row_length_of_wf f hwf a ha
  · rw [List.set_eq_of_length_le (by simpa [Field.rows] using Nat.le_of_not_lt ha)] at hrow
    exact hwf row hrow

theorem cellN_setCell (f : Field) (hwf : f.wf) (a b : Nat) (v : Bool)
    (ha : a < f.rows) (hb : b < f.cols) (i j : Nat) :
    (f.setCell a b v).cellN i j = if i = a ∧ j = b then v else f.cellN i j := by
  unfold Field.cellN Field.setCell
  show ((f.cells.set a _).getD i []).getD j false = _
  by_cases hia : i = a
  · subst hia
    rw [getD_set_self _ _ _ _ (by simpa [Field.rows] using ha)]
    by_cases hjb : j = b
    · subst hjb
      rw [getD_row_set_self _ _ _ _ (by rw [row_length_of_wf f hwf i ha]; exact hb)]
      simp
    · rw [getD_row_set_ne _ _ _ _ _ (fun hh => hjb hh.symm)]
      simp [hjb]
  · rw [getD_set_ne _ _ _ _ _ (fun hh => hia hh.symm)]
    simp [hia]

theorem setMany_cons (f : Field) (a b : Nat) (cs : List (Nat × Nat)) (v : Bool) :
    f.setMany ((a, b) :: cs) v = (f.setCell a b v).setMany cs v := rfl

theorem rows_setMany (f : Field) (cs : List (Nat × Nat)) (v : Bool) :
    (f.setMany cs v).rows = f.rows := by
  induction cs generalizing f with
  | nil => rfl
  | cons c cs ih =>
    cases c with
    | mk a b => rw [setMany_cons, ih, rows_setCell]

theorem cols_setMany (f : Field) (cs : List (Nat × Nat)) (v : Bool) :
    (f.setMany cs v).cols = f.cols := by
  induction cs generalizing f with
  | nil => rfl
  | cons c cs ih =>
    cases c with
    | mk a b => rw [setMany_cons, ih, cols_setCell]

theorem wf_setMany (f : Field) (hwf : f.wf) (cs : List (Nat × Nat)) (v : Bool) :
    (f.setMany cs v).wf := by
  induction cs generalizing f with
  | nil => exact hwf
  | cons c cs ih =>
    cases c with
    | mk a b => rw [setMany_cons]; exact ih _ (wf_setCell f hwf a b v)

theorem cellN_setMany (f : Field) (hwf : f.wf) (cs : List (Nat × Nat)) (v : Bool)
    (hcs : ∀ x ∈ cs, x.1 < f.rows ∧ x.2 < f.cols) (i j : Nat) :
    (f.setMany cs v).cellN i j = if (i, j) ∈ cs then v else f.cellN i j := by
  induction cs generalizing f with
  | nil => simp [Field.setMany]
  | cons c cs ih =>
    cases c with
    | mk a b =>
      rw [setMany_cons]
      have hin := hcs (a, b) (by simp)
      rw [ih (f.setCell a b v) (wf_setCell f hwf a b v)
          (by intro x hx
              rw [rows_setCell, cols_setCell]
              exact hcs x (by simp [hx]))]
      rw [cellN_setCell f hwf a b v hin.1 hin.2]
      by_cases hmem : (i, j) ∈ cs
      · simp [hmem]
      · by_cases hab : i = a ∧ j = b
        · simp [hmem, hab, Prod.ext_iff]
        · have : ¬((i, j) = (a, b)) := by
            simp only [Prod.mk.injEq]
            exact hab
          simp [hmem, hab, this]

theorem length_foldl_setRow (row : List Bool) (rs : List Nat) :
    ∀ (cells : List (List Bool)),
      (rs.foldl (fun cs r => cs.set r row) cells).length = cells.length := by
  induction rs with
  | nil => intro cells; rfl
  | cons r rs ih => intro cells; rw [List.foldl_cons, ih, List.length_set]

theorem getD_foldl_setRow (row : List Bool) (rs : List Nat) :
    ∀ (cells : List (List Bool)) (i : Nat),
      (rs.foldl (fun cs r => cs.set r row) cells).getD i []
        = if i ∈ rs ∧ i < cells.length then row else cells.getD i [] := by
  induction rs with
  | nil => intro cells i; simp
  | cons r rs ih =>
    intro cells i
    rw [List.foldl_cons, ih, List.length_set]
    by_cases hmem : i ∈ rs ∧ i < cells.length
    · rw [if_pos hmem, if_pos ⟨List.mem_cons_of_mem r hmem.1, hmem.2⟩]
    · rw [if_neg hmem]
      by_cases hir : i = r
      · subst hir
        by_cases hlen : i < cells.length
        · rw [getD_set_self _ _ _ _ hlen, if_pos ⟨List.mem_cons_self i rs, hlen⟩]
        · rw [List.set_eq_of_length_le (Nat.le_of_not_lt hlen),
            if_neg (fun hc => hlen hc.2)]
      · rw [getD_set_ne _ _ _ _ _ (fun hh => hir hh.symm),
          if_neg (fun hc => by
            rcases List.mem_cons.mp hc.1 with h | h
            · exact hir h
            · exact hmem ⟨h, hc.2⟩)]

theorem mem_foldl_setRow (rowv : List Bool) (rs : List Nat) :
    ∀ (cells : List (List Bool)) (row : List Bool),
      row ∈ rs.foldl (fun cs r => cs.set r rowv) cells → row ∈ cells ∨ row = rowv := by
  induction rs with
  | nil => intro cells row h; exact Or.inl h
  | cons r rs ih =>
    intro cells row h
    rw [List.foldl_cons] at h
    rcases ih _ _ h with h2 | h2
    · rcases List.mem_or_eq_of_mem_set h2 with h3 | h3
      · exact Or.inl h3
      · exact Or.inr h3
    · exact Or.inr h2

theorem rows_setRows (f : Field) (rs : List Nat) (v : Bool) :
    (f.setRows rs v).rows = f.rows := by
  unfold Field.setRows Field.rows
  exact length_foldl_setRow _ rs f.cells

theorem getD_setRows (f : Field) (rs : List Nat) (v : Bool) (i : Nat) :
    (f.setRows rs v).cells.getD i []
      = if i ∈ rs ∧ i < f.rows then List.replicate f.cols v else f.cells.getD i [] := by
  unfold Field.setRows
  exact getD_foldl_setRow _ rs f.cells i

theorem cols_setRows (f : Field) (rs : List Nat) (v : Bool) :
    (f.setRows rs v).cols = f.cols := by
  have h0 : (f.setRows rs v).cols = ((f.setRows rs v).cells.getD 0 []).length := by
    unfold Field.cols
    rw [headD_eq_getD]
  have h1 : f.cols = (f.cells.getD 0 []).length := by
    unfold Field.cols
    rw [headD_eq_getD]
  rw [h0, getD_setRows]
  split
  · rw [List.length_replicate]
  · rw [h1]

theorem wf_setRows (f : Field) (hwf : f.wf) (rs : List Nat) (v : Bool) :
    (f.setRows rs v).wf := by
  intro row hrow
  rw [cols_setRows]
  rcases mem_foldl_setRow _ rs f.cells row hrow with h | h
  · exact hwf row h
  · subst h
    exact List.length_replicate _ _

theorem cellN_setRows (f : Field) (rs : List Nat) (v : Bool) (i j : Nat)
    (hj : j < f.cols) :
    (f.setRows rs v).cellN i j
      = if i ∈ rs ∧ i < f.rows then v else f.cellN i j := by
  unfold Field.cellN
  rw [getD_setRows]
  split
  · rw [List.getD_eq_getElem _ _ (by simpa using hj)]
    simp
  · rfl

theorem mem_idx_nonzero (f : Field) (top : Nat) (i j : Nat) :
    (i, j) ∈ f.idx_nonzero top
      ↔ i < min top f.rows ∧ j < f.cols ∧ f.cellN i j = true := by
  unfold Field.idx_nonzero
  simp only [List.mem_flatten, List.mem_map, List.mem_range]
  constructor
  · rintro ⟨l, ⟨a, ha, rfl⟩, hmem⟩
    rw [List.mem_filterMap] at hmem
    obtain ⟨b, hb, hsome⟩ := hmem
    rw [List.mem_range] at hb
    split at hsome
    · next hcell =>
      rw [Option.some.injEq, Prod.mk.injEq] at hsome
      obtain ⟨rfl, rfl⟩ := hsome
      exact ⟨ha, hb, hcell⟩
    · exact absurd hsome (by simp)
  · rintro ⟨hi, hj, hcell⟩
    refine ⟨_, ⟨i, hi, rfl⟩, ?_⟩
    rw [List.mem_filterMap]
    exact ⟨j, List.mem_range.mpr hj, by rw [if_pos hcell]⟩

theorem foldl_min_eq (r : List Nat) :
    ∀ (x : Nat), (∀ y ∈ r, x ≤ y) → r.foldl min x = x := by
  induction r with
  | nil => intro x _; rfl
  | cons y r ih =>
    intro x h
    rw [List.foldl_cons, Nat.min_eq_left (h y (by simp))]
    exact ih x (fun z hz => h z (by simp [hz]))

theorem isRun_head_le (x : Nat) (r : List Nat) (h : isRun (x :: r)) :
    ∀ y ∈ r, x ≤ y := by
  induction r generalizing x with
  | nil => intro y hy; cases hy
  | cons y r ih =>
    intro z hz
    rw [isRun, List.chain'_cons] at h
    rcases List.mem_cons.mp hz with rfl | hz2
    · omega
    · have := ih y h.2 z hz2
      omega

theorem minList_of_isRun (c : List Nat) (h : isRun c) : minList c = c.headD 0 := by
  cases c with
  | nil => rfl
  | cons x r =>
    unfold minList
    exact foldl_min_eq r x (isRun_head_le x r h)

theorem isRun_eq_range' (c : List Nat) (h : isRun c) :
    c = List.range' (c.headD 0) c.length := by
  induction c with
  | nil => rfl
  | cons x t ih =>
    cases t with
    | nil => rfl
    | cons y r =>
      rw [isRun, List.chain'_cons] at h
      obtain ⟨hxy, h2⟩ := h
      have := ih h2
      simp only [List.headD_cons] at this ⊢
      rw [List.length_cons, List.range'_succ]
      rw [show x + 1 = y by omega]
      rw [← this]

theorem mem_of_isRun (c : List Nat) (h : isRun c) (y : Nat) :
    y ∈ c ↔ c.headD 0 ≤ y ∧ y < c.headD 0 + c.length := by
  conv_lhs => rw [isRun_eq_range' c h]
  exact List.mem_range'_1

theorem headD_append_of_ne_nil (l l2 : List Nat) (h : l ≠ []) (d : Nat) :
    (l ++ l2).headD d = l.headD d := by
  cases l with
  | nil => exact absurd rfl h
  | cons x t => rfl

theorem getLastD_of_ne_nil (l : List Nat) (h : l ≠ []) :
    l.getLast? = some (l.getLastD 0) := by
  rw [List.getLastD_eq_getLast?]
  cases hl : l.getLast? with
  | none => exact absurd (List.getLast?_eq_none_iff.mp hl) h
  | some x => rfl

theorem isRun_concat (c : List Nat) (idx : Nat) (hne : c ≠ []) (hrun : isRun c)
    (hidx : idx = c.getLastD 0 + 1) : isRun (c ++ [idx]) := by
  rw [isRun, List.chain'_append]
  refine ⟨hrun, by simp [isRun], ?_⟩
  intro x hx y hy
  rw [getLastD_of_ne_nil c hne] at hx
  simp only [Option.mem_def, Option.some.injEq] at hx
  simp only [List.head?_cons, Option.mem_def, Option.some.injEq] at hy
  omega

theorem break_chunks_aux_spec (rest : List Nat) :
    ∀ (curr : List Nat) (chunks : List (List Nat)),
      curr ≠ [] → isRun curr →
      (∀ c ∈ chunks, c ≠ [] ∧ isRun c) →
      List.Chain' gapped (chunks ++ [curr]) →
      List.Chain' (· < ·) (curr.getLastD 0 :: rest) →
      (Field.break_chunks_aux rest curr chunks).flatten = chunks.flatten ++ curr ++ rest
      ∧ (∀ c ∈ Field.break_chunks_aux rest curr chunks, c ≠ [] ∧ isRun c)
      ∧ List.Chain' gapped (Field.break_chunks_aux rest curr chunks) := by
  induction rest with
  | nil =>
    intro curr chunks hne hrun hprops hgap hsorted
    refine ⟨by simp [Field.break_chunks_aux], ?_, by simpa using hgap⟩
    intro c hc
    rw [Field.break_chunks_aux] at hc
    rcases List.mem_append.mp hc with h | h
    · exact hprops c h
    · rw [List.mem_singleton] at h
      subst h
      exact ⟨hne, hrun⟩
  | cons idx rest ih =>
    intro curr chunks hne hrun hprops hgap hsorted
    rw [List.chain'_cons] at hsorted
    obtain ⟨hlt, hsorted2⟩ := hsorted
    rw [Field.break_chunks_aux]
    split
    · next heq =>
      have h1 : curr ++ [idx] ≠ [] := by simp
      have h2 : isRun (curr ++ [idx]) := isRun_concat curr idx hne hrun heq
      have h3 : List.Chain' gapped (chunks ++ [curr ++ [idx]]) := by
        rw [List.chain'_append] at hgap ⊢
        refine ⟨hgap.1, by simp, ?_⟩
        intro x hx y hy
        simp only [List.head?_cons, Option.mem_def, Option.some.injEq] at hy
        subst hy
        have hg := hgap.2.2 x hx curr (by simp)
        unfold gapped at hg ⊢
        rw [headD_append_of_ne_nil curr [idx] hne]
        exact hg
      have h4 : List.Chain' (· < ·) ((curr ++ [idx]).getLastD 0 :: rest) := by
        rw [List.getLastD_concat]
        exact hsorted2
      obtain ⟨e1, e2, e3⟩ := ih (curr ++ [idx]) chunks h1 h2 hprops h3 h4
      refine ⟨?_, e2, e3⟩
      rw [e1]
      simp
    · next hneq =>
      have h1 : ([idx] : List Nat) ≠ [] := by simp
      have h2 : isRun ([idx] : List Nat) := by simp [isRun]
      have h3 : ∀ c ∈ chunks ++ [curr], c ≠ [] ∧ isRun c := by
        intro c hc
        rcases List.mem_append.mp hc with h | h
        · exact hprops c h
        · rw [List.mem_singleton] at h
          subst h
          exact ⟨hne, hrun⟩
      have h4 : List.Chain' gapped ((chunks ++ [curr]) ++ [[idx]]) := by
        rw [List.chain'_append]
        refine ⟨hgap, by simp, ?_⟩
        intro x hx y hy
        simp only [List.head?_cons, Option.mem_def, Option.some.injEq] at hy
        subst hy
        rw [List.getLast?_concat] at hx
        simp only [Option.mem_def, Option.some.injEq] at hx
        subst hx
        unfold gapped
        simp only [List.headD_cons]
        omega
      have h5 : List.Chain' (· < ·) (([idx] : List Nat).getLastD 0 :: rest) := by
        simpa using hsorted2
      obtain ⟨e1, e2, e3⟩ := ih [idx] (chunks ++ [curr]) h1 h2 h3 h4 h5
      refine ⟨?_, e2, e3⟩
      rw [e1]
      simp

theorem break_into_chunks_spec (l : List Nat) (hl : List.Chain' (· < ·) l) :
    (Field.break_into_chunks l).flatten = l
    ∧ (∀ c ∈ Field.break_into_chunks l, c ≠ [] ∧ isRun c)
    ∧ List.Chain' gapped (Field.break_into_chunks l) := by
  cases l with
  | nil =>
    refine ⟨rfl, ?_, by simp [Field.break_into_chunks]⟩
    intro c hc
    simp [Field.break_into_chunks] at hc
  | cons x rest =>
    obtain ⟨e1, e2, e3⟩ := break_chunks_aux_spec rest [x] [] (by simp) (by simp [isRun])
      (by simp) (by simp) (by simpa using hl)
    rw [Field.break_into_chunks]
    exact ⟨by simpa using e1, e2, e3⟩

theorem full_row_num_sorted (f : Field) (lo hi : Nat) :
    List.Chain' (· < ·) (f.full_row_num lo hi) := by
  unfold Field.full_row_num
  exact ((List.pairwise_lt_range f.rows).filter _).chain'

theorem mem_full_row_num (f : Field) (lo hi i : Nat) :
    i ∈ f.full_row_num lo hi
      ↔ i < f.rows ∧ lo ≤ i ∧ i < hi ∧ (f.cells.getD i []).all id = true := by
  unfold Field.full_row_num
  rw [List.mem_filter, List.mem_range]
  simp [Bool.and_eq_true, decide_eq_true_eq, and_assoc]

theorem rows_buildField (r c : Nat) (g : Nat → Nat → Bool) :
    (buildField r c g).rows = r := by
  simp [buildField, Field.rows]

theorem cols_buildField (r c : Nat) (g : Nat → Nat → Bool) (hr : 0 < r) :
    (buildField r c g).cols = c := by
  unfold buildField Field.cols
  cases r with
  | zero => omega
  | succ n =>
    rw [List.range_succ_eq_map]
    simp

theorem wf_buildField (r c : Nat) (g : Nat → Nat → Bool) (hr : 0 < r) :
    (buildField r c g).wf := by
  intro row hrow
  rw [cols_buildField r c g hr]
  unfold buildField at hrow
  simp only [List.mem_map, List.mem_range] at hrow
  obtain ⟨a, _, rfl⟩ := hrow
  simp

theorem cellN_buildField (r c : Nat) (g : Nat → Nat → Bool) (i j : Nat)
    (hi : i < r) (hj : j < c) :
    (buildField r c g).cellN i j = g i j := by
  unfold buildField Field.cellN
  have h1 : (List.map (fun a => List.map (g a) (List.range c)) (List.range r)).getD i []
      = List.map (g i) (List.range c) := by
    rw [List.getD_eq_getElem _ _ (by simpa using hi)]
    simp
  rw [h1, List.getD_eq_getElem _ _ (by simpa using hj)]
  simp

theorem field_ext_cells (f g : Field) (hwf : f.wf) (hwg : g.wf)
    (hrows : f.rows = g.rows) (hcols : f.cols = g.cols)
    (h : ∀ i j, i < f.rows → j < f.cols → f.cellN i j = g.cellN i j) : f = g := by
  have hlen : f.cells.length = g.cells.length := hrows
  have hrowlen : ∀ (i : Nat) (hi : i < f.cells.length), f.cells[i].length = f.cols :=
    fun i hi => hwf _ (List.getElem_mem hi)
  have hrowleng : ∀ (i : Nat) (hi : i < g.cells.length), g.cells[i].length = g.cols :=
    fun i hi => hwg _ (List.getElem_mem hi)
  have hcell : ∀ (i j : Nat) (hi : i < f.cells.length) (hj : j < f.cells[i].length),
      f.cellN i j = f.cells[i][j] := by
    intro i j hi hj
    unfold Field.cellN
    rw [List.getD_eq_getElem _ _ hi, List.getD_eq_getElem _ _ hj]
  have hcellg : ∀ (i j : Nat) (hi : i < g.cells.length) (hj : j < g.cells[i].length),
      g.cellN i j = g.cells[i][j] := by
    intro i j hi hj
    unfold Field.cellN
    rw [List.getD_eq_getElem _ _ hi, List.getD_eq_getElem _ _ hj]
  cases f with
  | mk fc =>
    cases g with
    | mk gc =>
      congr 1
      apply List.ext_getElem hlen
      intro i hi1 hi2
      apply List.ext_getElem
      · rw [hrowlen i hi1, hrowleng i hi2, hcols]
      · intro j hj1 hj2
        rw [← hcell i j hi1 hj1, ← hcellg i j hi2 hj2]
        apply h i j hi1
        rw [← hrowlen i hi1]
        exact hj1

theorem rows_lineclear_chunk (f : Field) (c : List Nat) :
    (f.lineclear_chunk c).rows = f.rows := by
  simp only [Field.lineclear_chunk]
  rw [rows_setMany, rows_setMany, rows_setRows]

theorem cols_lineclear_chunk (f : Field) (c : List Nat) :
    (f.lineclear_chunk c).cols = f.cols := by
  simp only [Field.lineclear_chunk]
  rw [cols_setMany, cols_setMany, cols_setRows]

theorem wf_lineclear_chunk (f : Field) (hwf : f.wf) (c : List Nat) :
    (f.lineclear_chunk c).wf := by
  simp only [Field.lineclear_chunk]
  exact wf_setMany _ (wf_setMany _ (wf_setRows f hwf c false) _ _) _ _

theorem lineclear_chunk_cell (f : Field) (c : List Nat) (hwf : f.wf)
    (hne : c ≠ []) (hrun : isRun c) (hbound : ∀ x ∈ c, x < f.rows)
    (i j : Nat) (hi : i < f.rows) (hj : j < f.cols) :
    (f.lineclear_chunk c).cellN i j
      = (if i < c.length then false
         else if i < c.headD 0 + c.length then f.cellN (i - c.length) j
         else f.cellN i j) := by
  have hn1 : 1 ≤ c.length := List.length_pos.mpr hne
  have hmemc : ∀ y, y ∈ c ↔ c.headD 0 ≤ y ∧ y < c.headD 0 + c.length :=
    fun y => mem_of_isRun c hrun y
  have harows : c.headD 0 < f.rows :=
    hbound _ ((hmemc _).mpr ⟨Nat.le_refl _, by omega⟩)
  have han : c.headD 0 + c.length ≤ f.rows := by
    have := hbound (c.headD 0 + c.length - 1) ((hmemc _).mpr (by omega))
    omega
  have hstep : f.lineclear_chunk c
      = ((f.setRows c false).setMany
            ((f.setRows c false).idx_nonzero (c.headD 0)) false).setMany
          (IndexFactory.make_shifted_pos0
            ((f.setRows c false).idx_nonzero (c.headD 0)) c.length) true := by
    simp only [Field.lineclear_chunk]
    rw [minList_of_isRun c hrun]
  rw [hstep]
  have hwf1 : (f.setRows c false).wf := wf_setRows f hwf c false
  have hnzmem : ∀ x y : Nat,
      (x, y) ∈ (f.setRows c false).idx_nonzero (c.headD 0)
        ↔ x < c.headD 0 ∧ y < f.cols ∧ f.cellN x y = true := by
    intro x y
    rw [mem_idx_nonzero]
    rw [rows_setRows, cols_setRows]
    rw [Nat.min_eq_left (Nat.le_of_lt harows)]
    constructor
    · rintro ⟨h1, h2, h3⟩
      rw [cellN_setRows f c false x y h2] at h3
      refine ⟨h1, h2, ?_⟩
      split at h3
      · exact absurd h3 (by simp)
      · exact h3
    · rintro ⟨h1, h2, h3⟩
      refine ⟨h1, h2, ?_⟩
      rw [cellN_setRows f c false x y h2]
      rw [if_neg (fun hh => by rw [hmemc] at hh; omega)]
      exact h3
  have hnzrange : ∀ z ∈ (f.setRows c false).idx_nonzero (c.headD 0),
      z.1 < (f.setRows c false).rows ∧ z.2 < (f.setRows c false).cols := by
    intro z hz
    cases z with
    | mk x y =>
      rw [hnzmem x y] at hz
      rw [rows_setRows, cols_setRows]
      exact ⟨by omega, hz.2.1⟩
  have hshmem : ∀ x y : Nat,
      (x, y) ∈ IndexFactory.make_shifted_pos0
          ((f.setRows c false).idx_nonzero (c.headD 0)) c.length
        ↔ c.length ≤ x ∧ (x - c.length, y) ∈ (f.setRows c false).idx_nonzero (c.headD 0) := by
    intro x y
    unfold IndexFactory.make_shifted_pos0
    rw [List.mem_map]
    constructor
    · rintro ⟨z, hz, heq⟩
      cases z with
      | mk x0 y0 =>
        simp only [Prod.mk.injEq] at heq
        obtain ⟨hx, hy⟩ := heq
        subst hx
        subst hy
        rw [Nat.add_sub_cancel]
        exact ⟨by omega, hz⟩
    · rintro ⟨h1, h2⟩
      refine ⟨(x - c.length, y), h2, ?_⟩
      simp only [Prod.mk.injEq]
      exact ⟨by omega, trivial⟩
  have hshrange : ∀ z ∈ IndexFactory.make_shifted_pos0
      ((f.setRows c false).idx_nonzero (c.headD 0)) c.length,
      z.1 < ((f.setRows c false).setMany
          ((f.setRows c false).idx_nonzero (c.headD 0)) false).rows
      ∧ z.2 < ((f.setRows c false).setMany
          ((f.setRows c false).idx_nonzero (c.headD 0)) false).cols := by
    intro z hz
    cases z with
    | mk x y =>
      rw [hshmem x y] at hz
      obtain ⟨h1, h2⟩ := hz
      rw [hnzmem] at h2
      rw [rows_setMany, rows_setRows, cols_setMany, cols_setRows]
      exact ⟨by omega, h2.2.1⟩
  rw [cellN_setMany _ (wf_setMany _ hwf1 _ _) _ true hshrange i j]
  rw [cellN_setMany _ hwf1 _ false hnzrange i j]
  rw [cellN_setRows f c false i j hj]
  by_cases hc1 : i < c.length
  · rw [if_pos hc1]
    rw [if_neg (fun hh => by
      rw [hshmem i j] at hh
      exact absurd hh.1 (by omega))]
    by_cases hc2 : (i, j) ∈ (f.setRows c false).idx_nonzero (c.headD 0)
    · rw [if_pos hc2]
    · rw [if_neg hc2]
      by_cases hc3 : i ∈ c
      · rw [if_pos ⟨hc3, hi⟩]
      · rw [if_neg (fun hh => hc3 hh.1)]
        have hia : i < c.headD 0 := by
          by_contra hge
          exact hc3 ((hmemc i).mpr ⟨by omega, by omega⟩)
        cases hfc : f.cellN i j with
        | false => rfl
        | true => exact absurd ((hnzmem i j).mpr ⟨hia, hj, hfc⟩) hc2
  · rw [if_neg hc1]
    by_cases hc4 : i < c.headD 0 + c.length
    · rw [if_pos hc4]
      by_cases hfc : f.cellN (i - c.length) j = true
      · rw [if_pos ((hshmem i j).mpr ⟨by omega,
          (hnzmem _ j).mpr ⟨by omega, hj, hfc⟩⟩), hfc]
      · have hfc2 : f.cellN (i - c.length) j = false := by
          cases h2 : f.cellN (i - c.length) j
          · rfl
          · exact absurd h2 hfc
        rw [if_neg (fun hh => by
          rw [hshmem i j] at hh
          have h6 := hh.2
          rw [hnzmem] at h6
          exact hfc h6.2.2)]
        rw [hfc2]
        by_cases hc2 : (i, j) ∈ (f.setRows c false).idx_nonzero (c.headD 0)
        · rw [if_pos hc2]
        · rw [if_neg hc2]
          by_cases hc3 : i ∈ c
          · rw [if_pos ⟨hc3, hi⟩]
          · rw [if_neg (fun hh => hc3 hh.1)]
            have hia : i < c.headD 0 := by
              by_contra hge
              exact hc3 ((hmemc i).mpr ⟨by omega, hc4⟩)
            cases hfc3 : f.cellN i j with
            | false => rfl
            | true => exact absurd ((hnzmem i j).mpr ⟨hia, hj, hfc3⟩) hc2
    · rw [if_neg hc4]
      rw [if_neg (fun hh => by
        rw [hshmem i j] at hh
        obtain ⟨h5, h6⟩ := hh
        rw [hnzmem] at h6
        exact absurd h6.1 (by omega))]
      rw [if_neg (fun hh => by
        rw [hnzmem i j] at hh
        exact absurd hh.1 (by omega))]
      rw [if_neg (fun hh => by
        have h7 := hh.1
        rw [hmemc i] at h7
        exact absurd h7.2 (by omega))]

theorem lineclear_chunk_eq_spec (f : Field) (c : List Nat) (hwf : f.wf)
    (hne : c ≠ []) (hrun : isRun c) (hbound : ∀ x ∈ c, x < f.rows) :
    f.lineclear_chunk c = specClearRun f (c.headD 0) c.length := by
  have hn1 : 1 ≤ c.length := List.length_pos.mpr hne
  have hr0 : 0 < f.rows := by
    have := hbound (c.headD 0) ((mem_of_isRun c hrun _).mpr ⟨Nat.le_refl _, by omega⟩)
    omega
  apply field_ext_cells
  · exact wf_lineclear_chunk f hwf c
  · unfold specClearRun
    exact wf_buildField _ _ _ hr0
  · rw [rows_lineclear_chunk]
    unfold specClearRun
    rw [rows_buildField]
  · rw [cols_lineclear_chunk]
    unfold specClearRun
    rw [cols_buildField _ _ _ hr0]
  · intro i j hi hj
    rw [rows_lineclear_chunk] at hi
    rw [cols_lineclear_chunk] at hj
    rw [lineclear_chunk_cell f c hwf hne hrun hbound i j hi hj]
    unfold specClearRun
    rw [cellN_buildField _ _ _ i j hi hj]

theorem foldl_lineclear_chunks (chunks : List (List Nat)) :
    ∀ (f : Field), f.wf →
      (∀ c ∈ chunks, c ≠ [] ∧ isRun c ∧ ∀ x ∈ c, x < f.rows) →
      chunks.foldl (fun g c => g.lineclear_chunk c) f
        = chunks.foldl (fun g c => specClearRun g (c.headD 0) c.length) f
      ∧ (chunks.foldl (fun g c => g.lineclear_chunk c) f).rows = f.rows
      ∧ (chunks.foldl (fun g c => g.lineclear_chunk c) f).cols = f.cols
      ∧ (chunks.foldl (fun g c => g.lineclear_chunk c) f).wf := by
  induction chunks with
  | nil => intro f hwf _; exact ⟨rfl, rfl, rfl, hwf⟩
  | cons c cs ih =>
    intro f hwf hall
    obtain ⟨hcne, hcrun, hcbound⟩ := hall c (by simp)
    have heq := lineclear_chunk_eq_spec f c hwf hcne hcrun hcbound
    rw [List.foldl_cons, List.foldl_cons]
    obtain ⟨e1, e2, e3, e4⟩ := ih (f.lineclear_chunk c) (wf_lineclear_chunk f hwf c)
      (by intro d hd
          obtain ⟨h1, h2, h3⟩ := hall d (by simp [hd])
          refine ⟨h1, h2, ?_⟩
          intro x hx
          rw [rows_lineclear_chunk]
          exact h3 x hx)
    refine ⟨?_, ?_, ?_, e4⟩
    · rw [e1, heq]
    · rw [e2, rows_lineclear_chunk]
    · rw [e3, cols_lineclear_chunk]

/-- C5: lineclear groups the full rows found within its half-open target
span into maximal runs of consecutive row indices (non-adjacent groups
of full rows stay separate runs), processes the runs from lowest row
index to highest, for each run zeroing every row of the run and shifting
every occupied cell strictly above the run's top downward by the run's
size while preserving its column (the fold of the spec-modelled
`specClearRun` transform), and returns the list of the original run
index-groups — the empty list when no row in the span is full. -/
theorem claim_C5 (f : Field) (hwf : f.wf) (span : Option (Nat × Nat)) :
    (f.lineclear span).1
        = Field.break_into_chunks
            (f.full_row_num (span.getD (0, f.rows)).1 (span.getD (0, f.rows)).2)
    ∧ ((f.lineclear span).1 = []
        ↔ f.full_row_num (span.getD (0, f.rows)).1 (span.getD (0, f.rows)).2 = [])
    ∧ ((f.lineclear span).1).flatten
        = f.full_row_num (span.getD (0, f.rows)).1 (span.getD (0, f.rows)).2
    ∧ (∀ c ∈ (f.lineclear span).1, c ≠ [] ∧ isRun c)
    ∧ List.Chain' gapped (f.lineclear span).1
    ∧ (f.lineclear span).2
        = ((f.lineclear span).1).foldl
            (fun g c => specClearRun g (c.headD 0) c.length) f := by
  have hsorted := full_row_num_sorted f (span.getD (0, f.rows)).1 (span.getD (0, f.rows)).2
  obtain ⟨hflat, hprops, hgap⟩ := break_into_chunks_spec _ hsorted
  by_cases hempty : (f.full_row_num (span.getD (0, f.rows)).1
      (span.getD (0, f.rows)).2).isEmpty = true
  · have hnil := List.isEmpty_iff.mp hempty
    simp only [Field.lineclear]
    rw [if_pos hempty, hnil]
    refine ⟨rfl, by simp, rfl, ?_, by simp, rfl⟩
    intro c hc
    cases hc
  · simp only [Field.lineclear]
    rw [if_neg hempty]
    have hboundall : ∀ c ∈ Field.break_into_chunks
        (f.full_row_num (span.getD (0, f.rows)).1 (span.getD (0, f.rows)).2),
        c ≠ [] ∧ isRun c ∧ ∀ x ∈ c, x < f.rows := by
      intro c hc
      obtain ⟨h1, h2⟩ := hprops c hc
      refine ⟨h1, h2, ?_⟩
      intro x hx
      have hx2 : x ∈ f.full_row_num (span.getD (0, f.rows)).1 (span.getD (0, f.rows)).2 := by
        rw [← hflat]
        exact List.mem_flatten.mpr ⟨c, hc, hx⟩
      exact ((mem_full_row_num f _ _ x).mp hx2).1
    obtain ⟨e1, -, -, -⟩ := foldl_lineclear_chunks _ f hwf hboundall
    refine ⟨rfl, ?_, hflat, hprops, hgap, e1⟩
    constructor
    · intro h
      have h2 : Field.break_into_chunks
          (f.full_row_num (span.getD (0, f.rows)).1 (span.getD (0, f.rows)).2) = [] := h
      rw [← hflat, h2]
      rfl
    · intro h
      exact absurd (by rw [h]; rfl) hempty

theorem claim_C5_witness :
    Field.wf fieldC5
    ∧ ((fieldC5.lineclear none).1
        = Field.break_into_chunks
            (fieldC5.full_row_num ((none : Option (Nat × Nat)).getD (0, fieldC5.rows)).1
              ((none : Option (Nat × Nat)).getD (0, fieldC5.rows)).2)
      ∧ ((fieldC5.lineclear none).1 = []
          ↔ fieldC5.full_row_num ((none : Option (Nat × Nat)).getD (0, fieldC5.rows)).1
              ((none : Option (Nat × Nat)).getD (0, fieldC5.rows)).2 = [])
      ∧ ((fieldC5.lineclear none).1).flatten
          = fieldC5.full_row_num ((none : Option (Nat × Nat)).getD (0, fieldC5.rows)).1
              ((none : Option (Nat × Nat)).getD (0, fieldC5.rows)).2
      ∧ (∀ c ∈ (fieldC5.lineclear none).1, c ≠ [] ∧ isRun c)
      ∧ List.Chain' gapped (fieldC5.lineclear none).1
      ∧ (fieldC5.lineclear none).2
          = ((fieldC5.lineclear none).1).foldl
              (fun g c => specClearRun g (c.headD 0) c.length) fieldC5) :=
  ⟨by decide, claim_C5 fieldC5 (by decide) none⟩

end Shetris
